import Mathlib

/-!
Shallow embedding of the swagger/OpenAPI summarization core
(`summarizeSchema`, `mergeSchemaSummaries`, `mergePropertySummaries`,
`sanitizeEnumList`, `createRefResolver`, `summarizeResponses`,
`summarizeRequestBody`, `summarizeParameters`, `collectPathMatches`)
of the agent-mcp repository, together with proofs about it.

JavaScript values are modelled by `JVal`.  Objects and arrays carry a
numeric identity tag: two JS objects are the same object exactly when
they carry the same tag, which is what the `WeakSet` cycle guard of
`summarizeSchema` keys on.  Object fields are kept in insertion order
(the reordering JS applies to integer-like keys is not modelled; the
schema documents the code works on use non-numeric keys).  Values are
immutable here, so `cloneSchemaSummary` of the source is the identity
and is not given a separate definition.  Prototype-chain lookup of the
JS `in` operator is not modelled: field lookup sees own keys only.
-/

namespace AgentMcp

inductive JVal where
  | jnull
  | jbool (b : Bool)
  | jnum (n : Int)
  | jstr (s : String)
  | jarr (id : Nat) (elems : List JVal)
  | jobj (id : Nat) (fields : List (String × JVal))

/-- JS truthiness of a value (`NaN` is not representable: numbers are
modelled as integers, which the schema fields exercised here are). -/
def jsTruthy : JVal → Bool
  | .jnull => false
  | .jbool b => b
  | .jnum n => n != 0
  | .jstr s => s != ""
  | .jarr _ _ => true
  | .jobj _ _ => true

/-- Whether `typeof v === "object"` holds (`null` included, as in JS). -/
def isObjLike : JVal → Bool
  | .jnull => true
  | .jarr _ _ => true
  | .jobj _ _ => true
  | _ => false

/-- Identity tag of an object/array, `none` for primitives.  A value has
a tag exactly when it passes `v && typeof v === "object"`, except for
`null`, which is falsy. -/
def nodeIdOf : JVal → Option Nat
  | .jarr i _ => some i
  | .jobj i _ => some i
  | _ => none

/-- Own-property lookup, `v[k]`; `undefined` is `none`.  Arrays and
primitives have none of the (non-numeric) keys this code reads. -/
def getField : JVal → String → Option JVal
  | .jobj _ fields, k => fields.lookup k
  | _, _ => none

/-- Entries in the sense of `Object.entries`: object fields in order;
arrays and strings yield their indexed elements, other primitives
nothing. -/
def entriesOf : JVal → List (String × JVal)
  | .jobj _ fields => fields
  | .jarr _ elems => elems.enum.map (fun p => (toString p.1, p.2))
  | .jstr s => s.data.enum.map (fun p => (toString p.1, JVal.jstr p.2.toString))
  | _ => []

/-- Reads `v[k]` when `typeof v[k] === "string"`. -/
def jsGetStr (v : JVal) (k : String) : Option String :=
  match getField v k with
  | some (.jstr s) => some s
  | _ => none

/-- Keeps a string only when it is truthy, i.e. non-empty; models the
pattern `if (x) target = x` on an optional string. -/
def strKeep : Option String → Option String
  | some s => if s = "" then none else some s
  | none => none

/-- Truthiness of an optional string variable. -/
def jsStrTruthy : Option String → Bool
  | some s => s != ""
  | none => false

/-- Character-list prefix test. -/
def strHasPre : List Char → List Char → Bool
  | [], _ => true
  | _ :: _, [] => false
  | a :: as, b :: bs => a == b && strHasPre as bs

/-- Substring occurrence test on character lists. -/
def strIncl : List Char → List Char → Bool
  | [], sub => strHasPre sub []
  | h :: t, sub => strHasPre sub (h :: t) || strIncl t sub

/-- JS `hay.includes(sub)`. -/
def jsIncludes (hay sub : String) : Bool :=
  strIncl hay.data sub.data

/-- Character-level split (JS `s.split(sep)` for a one-character
separator); splitting the empty string yields one empty segment, as in
JS. -/
def splitCharList (sep : Char) : List Char → List (List Char)
  | [] => [[]]
  | c :: cs =>
    if c = sep then [] :: splitCharList sep cs
    else match splitCharList sep cs with
      | [] => [[c]]
      | seg :: rest => (c :: seg) :: rest

/-- Global, left-to-right, non-overlapping replacement of the
two-character pattern `p1 p2` by `r`, i.e. `s.replace(/p1p2/g, r)`. -/
def replace2 (p1 p2 r : Char) : List Char → List Char
  | [] => []
  | [c] => [c]
  | c1 :: c2 :: rest =>
    if c1 = p1 && c2 = p2 then r :: replace2 p1 p2 r rest
    else c1 :: replace2 p1 p2 r (c2 :: rest)

/-- JS `s.trim()` (the ASCII whitespace the documents at hand use). -/
def jsTrim (s : String) : String :=
  String.mk (((s.data.dropWhile Char.isWhitespace).reverse.dropWhile Char.isWhitespace).reverse)

def lowerStr (s : String) : String :=
  String.mk (s.data.map Char.toLower)

def upperStr (s : String) : String :=
  String.mk (s.data.map Char.toUpper)

/-- The whitespace class `Number()` trims before parsing (ECMAScript
`StrWhiteSpaceChar`: ASCII whitespace, NBSP, the Unicode space
separators, LS, PS and the BOM). -/
def jsNumWhite (c : Char) : Bool :=
  c = ' ' || c = '\t' || c = '\n' || c.val = 0x0B || c.val = 0x0C ||
  c.val = 0x0D || c.val = 0xA0 || c.val = 0x1680 ||
  (0x2000 ≤ c.val && c.val ≤ 0x200A) || c.val = 0x2028 || c.val = 0x2029 ||
  c.val = 0x202F || c.val = 0x205F || c.val = 0x3000 || c.val = 0xFEFF

def trimNumWhite (l : List Char) : List Char :=
  ((l.dropWhile (fun c => jsNumWhite c)).reverse.dropWhile
    (fun c => jsNumWhite c)).reverse

/-- A value of JS `Number(string)`: `NaN`, a signed infinity, or the
exact finite decimal `num / 10 ^ den10`.  (The IEEE-754 rounding of the
exact value to a double is not modeled; it could only matter for an
index written with more than 17 significant digits, and such an index
exceeds any real array length anyway.) -/
inductive JSNum where
  | nan
  | inf (neg : Bool)
  | fin (num : Int) (den10 : Nat)
deriving DecidableEq

def decDigit (c : Char) : Bool :=
  48 ≤ c.toNat && c.toNat < 58

def decDigitVal (c : Char) : Option Nat :=
  if 48 ≤ c.toNat && c.toNat < 58 then some (c.toNat - 48) else none

def hexDigitVal (c : Char) : Option Nat :=
  let n := c.toNat
  if 48 ≤ n && n < 58 then some (n - 48)
  else if 97 ≤ n && n < 103 then some (n - 87)
  else if 65 ≤ n && n < 71 then some (n - 55)
  else none

def octDigitVal (c : Char) : Option Nat :=
  if 48 ≤ c.toNat && c.toNat < 56 then some (c.toNat - 48) else none

def binDigitVal (c : Char) : Option Nat :=
  if c = '0' then some 0 else if c = '1' then some 1 else none

/-- Value of a non-empty all-digit run in the given base; `none` when
the run is empty or contains a non-digit. -/
def digitsValGo (base : Nat) (dval : Char → Option Nat) :
    List Char → Nat → Option Nat
  | [], acc => some acc
  | c :: r, acc =>
    match dval c with
    | some d => digitsValGo base dval r (acc * base + d)
    | none => none

def digitsVal (base : Nat) (dval : Char → Option Nat) :
    List Char → Option Nat
  | [] => none
  | l => digitsValGo base dval l 0

/-- An optional `e`/`E` exponent with mandatory digits, consuming the
whole remaining input; an empty remainder is exponent `0`. -/
def parseExponent : List Char → Option Int
  | [] => some 0
  | c :: r =>
    if c = 'e' || c = 'E' then
      match r with
      | '+' :: ds => (digitsVal 10 decDigitVal ds).map Int.ofNat
      | '-' :: ds => (digitsVal 10 decDigitVal ds).map (fun n => -(Int.ofNat n))
      | ds => (digitsVal 10 decDigitVal ds).map Int.ofNat
    else none

/-- Assemble `ip . fp e E` into an exact decimal, requiring at least one
mantissa digit and full consumption of `rest` by the exponent. -/
def mkDec (ip fp rest : List Char) : JSNum :=
  if ip.length + fp.length = 0 then .nan
  else
    match parseExponent rest with
    | none => .nan
    | some e =>
      let m : Nat :=
        (ip ++ fp).foldl (fun a c => 10 * a + ((decDigitVal c).getD 0)) 0
      let ew : Int := e - fp.length
      if 0 ≤ ew then .fin (Int.ofNat (m * 10 ^ ew.toNat)) 0
      else .fin (Int.ofNat m) (-ew).toNat

/-- `StrUnsignedDecimalLiteral`: `Digits ['.' Digits?]` or `'.' Digits`,
with an optional exponent. -/
def parseDecimal (l : List Char) : JSNum :=
  let ip := l.takeWhile (fun c => decDigit c)
  let rest1 := l.drop ip.length
  match rest1 with
  | '.' :: rest2 =>
    let fp := rest2.takeWhile (fun c => decDigit c)
    mkDec ip fp (rest2.drop fp.length)
  | rest => mkDec ip [] rest

def parseUnsignedDec (r : List Char) (neg : Bool) : JSNum :=
  if r = "Infinity".data then .inf neg
  else
    match parseDecimal r with
    | .fin n d => .fin (if neg then -n else n) d
    | x => x

def parseSignedDec (l : List Char) : JSNum :=
  match l with
  | '+' :: r => parseUnsignedDec r false
  | '-' :: r => parseUnsignedDec r true
  | r => parseUnsignedDec r false

/-- JS `Number(part)` on a string (the ECMAScript `StringNumericLiteral`
grammar): whitespace-trimmed; empty is `0`; an unsigned `0x`/`0o`/`0b`
radix literal; otherwise an optionally signed decimal literal (digits,
optional fraction, optional exponent) or `Infinity`; anything else is
`NaN`. -/
def jsToNumber (s : String) : JSNum :=
  match trimNumWhite s.data with
  | [] => .fin 0 0
  | '0' :: c :: rest =>
    if c = 'x' || c = 'X' then
      match digitsVal 16 hexDigitVal rest with
      | some v => .fin (Int.ofNat v) 0
      | none => .nan
    else if c = 'o' || c = 'O' then
      match digitsVal 8 octDigitVal rest with
      | some v => .fin (Int.ofNat v) 0
      | none => .nan
    else if c = 'b' || c = 'B' then
      match digitsVal 2 binDigitVal rest with
      | some v => .fin (Int.ofNat v) 0
      | none => .nan
    else parseSignedDec ('0' :: c :: rest)
  | t => parseSignedDec t

/-- `Number.isNaN(index)`. -/
def JSNum.isNaN : JSNum → Bool
  | .nan => true
  | _ => false

/-- `index < 0` (`NaN` compares false; `-0` is not negative). -/
def JSNum.isNeg : JSNum → Bool
  | .nan => false
  | .inf neg => neg
  | .fin n _ => decide (n < 0)

/-- `index >= current.length` for a natural array length. -/
def JSNum.geLen (x : JSNum) (len : Nat) : Bool :=
  match x with
  | .nan => false
  | .inf neg => !neg
  | .fin n d => decide ((len : Int) * 10 ^ d ≤ n)

/-- The element `current[index]` reads for `0 ≤ index < length`: the
element at an integral index; a fractional index reads the absent
property named by its decimal form, i.e. `undefined`. -/
def JSNum.elemIx : JSNum → Option Nat
  | .fin n d => if n % (10 ^ d : Int) = 0 then some (n / (10 ^ d : Int)).toNat else none
  | _ => none

-- ── Summary data model (types.ts) ───────────────────────────────────

mutual
inductive ParameterSchemaSummary where
  | mk (type format title description ref itemsType : Option String)
       (enumv itemsEnum : Option (List JVal))
       (dflt examplev : Option JVal)
       (properties : Option (List SchemaObjectPropertySummary))
       (itemsSchema : Option ParameterSchemaSummary)
inductive SchemaObjectPropertySummary where
  | mk (name : String) (required : Bool) (description : Option String)
       (schema : Option ParameterSchemaSummary)
end

namespace ParameterSchemaSummary

def type : ParameterSchemaSummary → Option String
  | .mk t _ _ _ _ _ _ _ _ _ _ _ => t

def format : ParameterSchemaSummary → Option String
  | .mk _ f _ _ _ _ _ _ _ _ _ _ => f

def title : ParameterSchemaSummary → Option String
  | .mk _ _ ti _ _ _ _ _ _ _ _ _ => ti

def description : ParameterSchemaSummary → Option String
  | .mk _ _ _ d _ _ _ _ _ _ _ _ => d

def ref : ParameterSchemaSummary → Option String
  | .mk _ _ _ _ r _ _ _ _ _ _ _ => r

def itemsType : ParameterSchemaSummary → Option String
  | .mk _ _ _ _ _ it _ _ _ _ _ _ => it

def enumv : ParameterSchemaSummary → Option (List JVal)
  | .mk _ _ _ _ _ _ e _ _ _ _ _ => e

def itemsEnum : ParameterSchemaSummary → Option (List JVal)
  | .mk _ _ _ _ _ _ _ ie _ _ _ _ => ie

def dflt : ParameterSchemaSummary → Option JVal
  | .mk _ _ _ _ _ _ _ _ d _ _ _ => d

def examplev : ParameterSchemaSummary → Option JVal
  | .mk _ _ _ _ _ _ _ _ _ e _ _ => e

def properties : ParameterSchemaSummary → Option (List SchemaObjectPropertySummary)
  | .mk _ _ _ _ _ _ _ _ _ _ p _ => p

def itemsSchema : ParameterSchemaSummary → Option ParameterSchemaSummary
  | .mk _ _ _ _ _ _ _ _ _ _ _ i => i

end ParameterSchemaSummary

namespace SchemaObjectPropertySummary

def name : SchemaObjectPropertySummary → String
  | .mk n _ _ _ => n

def required : SchemaObjectPropertySummary → Bool
  | .mk _ r _ _ => r

def description : SchemaObjectPropertySummary → Option String
  | .mk _ _ d _ => d

def schema : SchemaObjectPropertySummary → Option ParameterSchemaSummary
  | .mk _ _ _ s => s

end SchemaObjectPropertySummary

def emptySummary : ParameterSchemaSummary :=
  .mk none none none none none none none none none none none none

/-- The `hasData` / `hasDirectData` check: some of the twelve fields is
not `undefined`. -/
def hasData : ParameterSchemaSummary → Bool
  | .mk t f ti d r it e ie df ex pr isc =>
    t.isSome || f.isSome || e.isSome || it.isSome || ie.isSome ||
    df.isSome || ex.isSome || r.isSome || ti.isSome || d.isSome ||
    pr.isSome || isc.isSome

/-- One scalar step of `mergeSchemaSummaries`:
`if (!result.x && summary.x) result.x = summary.x` for a string field. -/
def scalarKeep (r s : Option String) : Option String :=
  if !jsStrTruthy r && jsStrTruthy s then s else r

/-- One presence step: `if (result.x === undefined && summary.x !== undefined)`,
also used for `enum` fields since any array is truthy. -/
def presKeep {α : Type} (r s : Option α) : Option α :=
  if r.isNone && s.isSome then s else r

/-- The `description` accumulation step of `mergeSchemaSummaries`. -/
def descKeep (r s : Option String) : Option String :=
  if jsStrTruthy s then
    if !jsStrTruthy r then s
    else match r, s with
      | some d, some t => if jsIncludes d t then some d else some (d ++ "; " ++ t)
      | _, _ => r
  else r

/-- Index of the entry `new Map(result.map(p => [p.name, p])).get(name)`
refers to: the last entry carrying `name` (JS `Map` keeps the last
binding of a repeated key). -/
def lastIdxNamed (l : List SchemaObjectPropertySummary) (n : String) : Option Nat :=
  match l with
  | [] => none
  | p :: rest =>
    match lastIdxNamed rest n with
    | some j => some (j + 1)
    | none => if p.name = n then some 0 else none

/-- What folding a summary into a fresh `{}` result computes: every
truthy-guarded scalar is kept only when truthy, presence-guarded fields
are copied, a non-empty property list is copied (`mergePropertySummaries`
with an undefined base clones), `itemsSchema` is cloned.  The lemma
`mergeStep_empty` below proves this equals `mergeStep emptySummary s`. -/
def absorbEmpty : ParameterSchemaSummary → ParameterSchemaSummary
  | .mk t f ti d r it e ie df ex pr isc =>
    .mk (strKeep t) (strKeep f) (strKeep ti) (strKeep d) (strKeep r) (strKeep it)
        e ie df ex
        (match pr with
         | some (p :: ps) => some (p :: ps)
         | _ => none)
        isc

/-- Scalar string fields of a normal summary are absent or non-empty. -/
def strOkB : Option String → Bool
  | none => true
  | some str => str != ""

/-- Summaries one fold into an empty result leaves unchanged: scalar
string fields absent or non-empty and no present-but-empty property
list.  `absorbEmpty` outputs and normal summaries are tidy. -/
def tidyS : ParameterSchemaSummary → Bool
  | .mk t f ti d r it _ _ _ _ pr _ =>
    strOkB t && strOkB f && strOkB ti && strOkB d && strOkB r && strOkB it &&
    (match pr with
     | some [] => false
     | _ => true)

mutual
/-- Body of the `for (const summary of filtered)` loop of
`mergeSchemaSummaries`: fold one contribution into the accumulated
result. -/
def mergeStep : ParameterSchemaSummary → ParameterSchemaSummary → ParameterSchemaSummary
  | .mk t f ti d r it e ie df ex pr isc, .mk t' f' ti' d' r' it' e' ie' df' ex' pr' isc' =>
    .mk (scalarKeep t t') (scalarKeep f f') (scalarKeep ti ti') (descKeep d d')
        (scalarKeep r r') (scalarKeep it it') (presKeep e e') (presKeep ie ie')
        (presKeep df df') (presKeep ex ex')
        (match pr' with
         | some (q :: qs) =>
           (match pr with
            | some (b :: bs) => some (mergePropsList (b :: bs) (q :: qs))
            | _ => some (q :: qs))
         | _ => pr)
        (match isc' with
         | some y =>
           (match isc with
            | some x => mergeTwoSummaries (some x) (some y)
            | none => some y)
         | none => isc)
termination_by structural _r s => s

/-- The two-argument use `mergeSchemaSummaries(a, b)` occurring inside
property and `itemsSchema` merging.  Written by recursion so the whole
group stays structural; `mergeTwoSummaries_spec` below proves it equal
to `mergeSchemaSummaries [a, b]`. -/
def mergeTwoSummaries : Option ParameterSchemaSummary → Option ParameterSchemaSummary → Option ParameterSchemaSummary
  | none, none => none
  | some x, none =>
    let r := absorbEmpty x
    if hasData r then some r else none
  | none, some y =>
    let r := absorbEmpty y
    if hasData r then some r else none
  | some x, some y =>
    let r := mergeStep (absorbEmpty x) y
    if hasData r then some r else none
termination_by structural _a b => b

/-- The `for (const property of incoming)` loop of
`mergePropertySummaries`, for a non-empty base. -/
def mergePropsList : List SchemaObjectPropertySummary → List SchemaObjectPropertySummary → List SchemaObjectPropertySummary
  | bs, [] => bs
  | bs, q :: qs => mergePropsList (insertProperty bs q) qs
termination_by structural _bs l => l

/-- One iteration of that loop: merge an incoming property into the
result list, updating the entry `indexByName` designates or appending a
fresh one. -/
def insertProperty : List SchemaObjectPropertySummary → SchemaObjectPropertySummary → List SchemaObjectPropertySummary
  | bs, .mk n rq ds sc =>
    match lastIdxNamed bs n with
    | some ix =>
      match bs.get? ix with
      | some (.mk _ rq0 ds0 sc0) =>
        bs.set ix (.mk n (rq0 || rq)
          (if !jsStrTruthy ds0 && jsStrTruthy ds then ds else ds0)
          (mergeTwoSummaries sc0 sc))
      | none => bs
    | none => bs ++ [.mk n rq ds sc]
termination_by structural _bs q => q
end

/-- The exported `mergeSchemaSummaries(...summaries)`, on the explicit
list of (possibly undefined) contributions. -/
def mergeSchemaSummaries (summaries : List (Option ParameterSchemaSummary)) : Option ParameterSchemaSummary :=
  let filtered := summaries.filterMap id
  if filtered.isEmpty then none
  else
    let result := filtered.foldl mergeStep emptySummary
    if hasData result then some result else none

/-- The exported `mergePropertySummaries(base, incoming)`: an absent or
empty base means the incoming list is cloned. -/
def mergePropertySummaries (base : Option (List SchemaObjectPropertySummary))
    (incoming : List SchemaObjectPropertySummary) : List SchemaObjectPropertySummary :=
  match base with
  | some (b :: bs) => mergePropsList (b :: bs) incoming
  | _ => incoming

/-- An incoming property the result list has already fully absorbed:
its name's `indexByName` entry exists and updating it with the incoming
property changes nothing. -/
def absorbedIn (L : List SchemaObjectPropertySummary)
    (p : SchemaObjectPropertySummary) : Prop :=
  ∃ ix e, lastIdxNamed L p.name = some ix ∧ L.get? ix = some e ∧
    e.name = p.name ∧ (e.required || p.required) = e.required ∧
    (if !jsStrTruthy e.description && jsStrTruthy p.description
     then p.description else e.description) = e.description ∧
    mergeTwoSummaries e.schema p.schema = e.schema

/-- Keeps the string/number/boolean entries of an `enum` array, or
`none` when the input is not an array or nothing survives. -/
def sanitizeEnumList (value : Option JVal) : Option (List JVal) :=
  match value with
  | some (.jarr _ es) =>
    let sanitized := es.filter (fun e =>
      match e with
      | .jstr _ => true
      | .jnum _ => true
      | .jbool _ => true
      | _ => false)
    if sanitized.isEmpty then none else some sanitized
  | _ => none

-- ── summarizeSchema ─────────────────────────────────────────────────

def MAX_SCHEMA_DEPTH : Nat := 3

/-- Helper for the final `combined.ref = ref` assignment of
`summarizeSchema`. -/
def withRef : ParameterSchemaSummary → Option String → ParameterSchemaSummary
  | .mk t f ti d _ it e ie df ex pr isc, r => .mk t f ti d r it e ie df ex pr isc

/-- The `items` block of `summarizeSchema`: the recursive summary of a
truthy `items` value. -/
def sumItems (recur : JVal → Nat → List Nat → Option ParameterSchemaSummary)
    (schema : JVal) (depth : Nat) (seen' : List Nat) : Option ParameterSchemaSummary :=
  match getField schema "items" with
  | some iv => if jsTruthy iv then recur iv (depth + 1) seen' else none
  | none => none

/-- The `properties` block of `summarizeSchema`: one property summary
per entry of a truthy `properties` object, or `none` when there are no
entries.  One divergence: the per-property description read is modeled
absent-safely, while the source reads `propSchemaObj.description` on the
raw value and so throws a `TypeError` when a property's schema value is
`null`; descriptions carry no nesting, so this cannot affect depth or
termination facts, and no concrete input here holds a `null` property
value. -/
def sumProps (recur : JVal → Nat → List Nat → Option ParameterSchemaSummary)
    (schema : JVal) (depth : Nat) (seen' : List Nat) :
    Option (List SchemaObjectPropertySummary) :=
  match getField schema "properties" with
  | some pv =>
    if jsTruthy pv && isObjLike pv then
      let requiredNames : List String :=
        match getField schema "required" with
        | some (.jarr _ es) => es.filterMap (fun e =>
            match e with
            | .jstr s => some s
            | _ => none)
        | _ => []
      let props := (entriesOf pv).map (fun kv =>
        let psum := recur kv.2 (depth + 1) seen'
        let pdesc := match jsGetStr kv.2 "description" with
          | some s => some s
          | none => psum.bind (fun σ => σ.description)
        SchemaObjectPropertySummary.mk kv.1 (decide (kv.1 ∈ requiredNames)) pdesc psum)
      match props with
      | [] => none
      | p :: ps => some (p :: ps)
    else none
  | none => none

/-- The `direct` summary a node contributes on its own: everything the
source assigns to `direct` before the contributions are merged.
`recur` stands for the recursive call (already carrying `resolveRef`
and receiving the extended path `seen'`). -/
def sumDirect (recur : JVal → Nat → List Nat → Option ParameterSchemaSummary)
    (schema : JVal) (depth : Nat) (seen' : List Nat) : ParameterSchemaSummary :=
  let t0 := strKeep (jsGetStr schema "type")
  let format0 := strKeep (jsGetStr schema "format")
  let title0 := strKeep (jsGetStr schema "title")
  let desc0 := strKeep (jsGetStr schema "description")
  let ref0 := strKeep (jsGetStr schema "$ref")
  let enum0 := sanitizeEnumList (getField schema "enum")
  let dflt0 := getField schema "default"
  let ex0 := getField schema "example"
  let isum := sumItems recur schema depth seen'
  let itemsType0 := match isum with
    | some σ => if jsStrTruthy σ.type then σ.type else none
    | none => none
  let itemsEnum0 := match isum with
    | some σ => σ.enumv
    | none => none
  let t1 := match isum with
    | some _ => if jsStrTruthy t0 then t0 else some "array"
    | none => t0
  let props0 := sumProps recur schema depth seen'
  let t2 := match props0 with
    | some _ => if jsStrTruthy t1 then t1 else some "object"
    | none => t1
  let marker : Option String → String → Option String := fun d m =>
    match d with
    | some s => if s = "" then some m else some (s ++ "; " ++ m)
    | none => some m
  let d1 := match getField schema "oneOf" with
    | some (.jarr _ es) =>
      if 1 < es.length then marker desc0 ("oneOf (" ++ toString es.length ++ " variants)") else desc0
    | _ => desc0
  let d2 := match getField schema "anyOf" with
    | some (.jarr _ es) =>
      if 1 < es.length then marker d1 ("anyOf (" ++ toString es.length ++ " variants)") else d1
    | _ => d1
  ParameterSchemaSummary.mk t2 format0 title0 d2 ref0 itemsType0
    enum0 itemsEnum0 dflt0 ex0 props0 isum

/-- The contribution a resolvable truthy `$ref` adds. -/
def sumRefContribution (recur : JVal → Nat → List Nat → Option ParameterSchemaSummary)
    (schema : JVal) (resolveRef : String → Option JVal) (depth : Nat)
    (seen' : List Nat) : List ParameterSchemaSummary :=
  match jsGetStr schema "$ref" with
  | some r =>
    if r ≠ "" then
      match resolveRef r with
      | some resolved =>
        if jsTruthy resolved && isObjLike resolved then
          match recur resolved (depth + 1) seen' with
          | some σ => [σ]
          | none => []
        else []
      | none => []
    else []
  | none => []

/-- The summarized `allOf`/`oneOf`/`anyOf` variants, in key order. -/
def sumVariants (recur : JVal → Nat → List Nat → Option ParameterSchemaSummary)
    (schema : JVal) (depth : Nat) (seen' : List Nat) : List ParameterSchemaSummary :=
  let variantsOf : Option JVal → List ParameterSchemaSummary := fun raw =>
    match raw with
    | some (.jarr _ es) => es.filterMap (fun v => recur v (depth + 1) seen')
    | _ => []
  variantsOf (getField schema "allOf") ++ variantsOf (getField schema "oneOf") ++
    variantsOf (getField schema "anyOf")

/-- The contribution list `summarizeSchema` merges: the direct summary
when it carries data, then the resolved `$ref`, then the combination
variants. -/
def sumContributions (recur : JVal → Nat → List Nat → Option ParameterSchemaSummary)
    (schema : JVal) (resolveRef : String → Option JVal) (depth : Nat)
    (seen' : List Nat) : List ParameterSchemaSummary :=
  (if hasData (sumDirect recur schema depth seen')
   then [sumDirect recur schema depth seen'] else []) ++
    sumRefContribution recur schema resolveRef depth seen' ++
    sumVariants recur schema depth seen'

/-- Per-node work of `summarizeSchema` after its guards: everything the
source does between `seen.add(current)` and the final `return`. -/
def sumBody (recur : JVal → Nat → List Nat → Option ParameterSchemaSummary)
    (schema : JVal) (resolveRef : String → Option JVal) (depth : Nat)
    (seen' : List Nat) : Option ParameterSchemaSummary :=
  match mergeSchemaSummaries ((sumContributions recur schema resolveRef depth seen').map some) with
  | none => none
  | some c =>
    match jsGetStr schema "$ref" with
    | some r =>
      if r ≠ "" && !jsStrTruthy c.ref then some (withRef c (some r)) else some c
    | none => some c

/-- Recursion core of `summarizeSchema`.  The source recursion stops as
soon as `depth > MAX_SCHEMA_DEPTH`, so it makes at most
`MAX_SCHEMA_DEPTH + 1 - depth` nested levels of calls; `fuel` is that
number, consumed one unit per level, and the wrapper `summarizeSchema`
below instantiates it so that the `fuel = 0` branch sits exactly at
`depth = MAX_SCHEMA_DEPTH + 1`, where the depth guard already answers
`none`.  `seen` is the set of identity tags of the objects on the
current recursion path: the source adds the node before recursing and
removes it in `finally`, which in this pure form is consing the tag
onto the list handed to the recursive calls only.  The per-node work
sits in `sumBody`. -/
def sumGo (fuel : Nat) (schema : JVal) (resolveRef : String → Option JVal)
    (depth : Nat) (seen : List Nat) : Option ParameterSchemaSummary :=
  match nodeIdOf schema with
  | none => none
  | some nid =>
    if nid ∈ seen || MAX_SCHEMA_DEPTH < depth then none
    else
      match fuel with
      | 0 => none
      | fuel' + 1 =>
        sumBody (fun v d' sn => sumGo fuel' v resolveRef d' sn)
          schema resolveRef depth (nid :: seen)

/-- The exported `summarizeSchema(schema, resolveRef, depth, seen)`. -/
def summarizeSchema (schema : JVal) (resolveRef : String → Option JVal)
    (depth : Nat) (seen : List Nat) : Option ParameterSchemaSummary :=
  sumGo (MAX_SCHEMA_DEPTH + 1 - depth) schema resolveRef depth seen

-- ── Ref resolver ────────────────────────────────────────────────────

/-- Whether `ref.startsWith("#/")`. -/
def startsHS (s : String) : Bool :=
  match s.data with
  | '#' :: '/' :: _ => true
  | _ => false

/-- The function-valued members of `Object.prototype`, visible through
the prototype chain on every plain JSON object (`part in current` is
true for them, and the read yields the inherited function). -/
def protoFnNames : List String :=
  ["constructor", "hasOwnProperty", "isPrototypeOf", "propertyIsEnumerable",
   "toLocaleString", "toString", "valueOf", "__defineGetter__",
   "__defineSetter__", "__lookupGetter__", "__lookupSetter__"]

/-- A value the resolver loop can hold: a document (JSON) value, an
inherited `Object.prototype` method, or `Object.prototype` itself
(reached through the `__proto__` accessor). -/
inductive Resolved where
  | plain (v : JVal)
  | protoFn (name : String)
  | protoObj

/-- One iteration of the resolver loop: advance through one (already
unescaped) pointer segment, or `undefined`.  Array segments go through
`Number` (`NaN`, negative or too-large indices answer `undefined`; a
fractional in-range index reads the absent element, which the next
iteration or the final return turns into `undefined` just the same).
Other nodes pass the `current && typeof current === "object"` guard —
functions do not, so a run continuing past an inherited method dies —
and are then read through `part in current`, which sees own keys first
and the `Object.prototype` members after them; on `Object.prototype`
itself the same names are own, and `__proto__` reads its `null`
prototype. -/
def resolveStep (cur : Option Resolved) (part : String) : Option Resolved :=
  match cur with
  | none => none
  | some (.plain (.jarr _ elems)) =>
    let ix := jsToNumber part
    if ix.isNaN || ix.isNeg || ix.geLen elems.length then none
    else
      match ix.elemIx with
      | some i => Option.map Resolved.plain (elems.get? i)
      | none => none
  | some (.plain c) =>
    if jsTruthy c && isObjLike c then
      match getField c part with
      | some v => some (.plain v)
      | none =>
        if part = "__proto__" then some .protoObj
        else if protoFnNames.contains part then some (.protoFn part)
        else none
    else none
  | some (.protoFn _) => none
  | some .protoObj =>
    if part = "__proto__" then some (.plain .jnull)
    else if protoFnNames.contains part then some (.protoFn part)
    else none

/-- The resolver body: the `typeof ref !== "string"` guard of the source
is static here.  Each segment is unescaped with `~1` to `/` first, then
`~0` to `~`. -/
def resolvePointer (doc : JVal) (ref : String) : Option Resolved :=
  if !startsHS ref then none
  else
    let parts := (splitCharList '/' (ref.data.drop 2)).map
      (fun seg => String.mk (replace2 '~' '0' '~' (replace2 '~' '1' '/' seg)))
    parts.foldl resolveStep (some (.plain doc))

/-- Identity tag reserved for `Object.prototype`; no document node in
this file carries it. -/
def PROTO_OBJECT_ID : Nat := 997

/-- The closure `createRefResolver(doc)` hands to the summarizers.  Its
result is read only under `resolved && typeof resolved === "object"`
guards, so an inherited function member (`typeof` `"function"`) is
indistinguishable from `undefined` there, and `Object.prototype` — all
of whose properties are non-enumerable and none of which the
summarizers read — behaves exactly like an empty object with one fixed
identity; the closure returns those observational equivalents in
`JVal`. -/
def createRefResolver (doc : JVal) : String → Option JVal :=
  fun ref =>
    match resolvePointer doc ref with
    | some (.plain v) => some v
    | some (.protoFn _) => none
    | some .protoObj => some (.jobj PROTO_OBJECT_ID [])
    | none => none

-- ── Parameter / request body / response summarizers ─────────────────

structure ParameterSummary where
  name : String
  paramIn : String
  required : Option Bool
  description : Option String
  schema : Option ParameterSchemaSummary

structure MediaContentSummary where
  contentType : String
  schema : Option ParameterSchemaSummary
  examplev : Option JVal
  examples : Option (List (String × JVal))

structure RequestBodySummary where
  required : Bool
  contentTypes : List String
  description : Option String
  contents : Option (List MediaContentSummary)

structure ResponseSummary where
  status : String
  description : Option String
  contentTypes : Option (List String)
  contents : Option (List MediaContentSummary)

/-- The extracted schema of one parameter: the summarized `schema` field
merged with the summary of the parameter object itself. -/
def extractParameterSchema (param : JVal) (resolveRef : String → Option JVal) :
    Option ParameterSchemaSummary :=
  let schemaFromParam := match getField param "schema" with
    | some v => summarizeSchema v resolveRef 0 []
    | none => none
  let inlineSummary := summarizeSchema param resolveRef 0 []
  mergeSchemaSummaries [schemaFromParam, inlineSummary]

/-- Object spread `{ ...resolved, ...param }`: the keys of `resolved` in
order, values overridden by `param`, then the new keys of `param`. -/
def spreadMerge (a b : List (String × JVal)) : List (String × JVal) :=
  a.map (fun kv =>
    (kv.1, match b.lookup kv.1 with
           | some v => v
           | none => kv.2)) ++
    b.filter (fun kv => (a.lookup kv.1).isNone)

/-- Fresh identity tag used for the object a parameter `$ref` spread
creates; the tag only matters against the tags inside one
`summarizeSchema` call path and the source never nests a spread object
inside itself. -/
def SPREAD_ID : Nat := 0

def summarizeParameters (operation : JVal) (resolveRef : String → Option JVal) :
    Option (List ParameterSummary) :=
  let params : List JVal := match getField operation "parameters" with
    | some (.jarr _ es) => es
    | _ => []
  let mapped := params.filterMap (fun param =>
    if !(jsTruthy param && isObjLike param) then none
    else
      let parameterObject :=
        match jsGetStr param "$ref" with
        | some r =>
          (match resolveRef r with
           | some resolved =>
             if jsTruthy resolved && isObjLike resolved then
               match resolved, param with
               | .jobj _ rf, .jobj _ pf => JVal.jobj SPREAD_ID (spreadMerge rf pf)
               | _, _ => param
             else param
           | none => param)
        | none => param
      match jsGetStr parameterObject "name", jsGetStr parameterObject "in" with
      | some nm, some loc =>
        some { name := nm
               paramIn := loc
               required := match getField parameterObject "required" with
                 | some (.jbool b) => some b
                 | _ => none
               description := jsGetStr parameterObject "description"
               schema := extractParameterSchema parameterObject resolveRef }
      | _, _ => none)
  if mapped.isEmpty then none else some mapped

/-- The `parseExamplesObject` helper: unwrap `value` members. -/
def parseExamplesObject (examples : List (String × JVal)) :
    Option (List (String × JVal)) :=
  let parsed := examples.map (fun kv =>
    (kv.1,
     if jsTruthy kv.2 && isObjLike kv.2 then
       match getField kv.2 "value" with
       | some w => w
       | none => kv.2
     else kv.2))
  if parsed.isEmpty then none else some parsed

/-- The media-type loop shared verbatim by `summarizeRequestBody` and
`summarizeResponses` in the source. -/
def summarizeMediaList (content : JVal) (resolveRef : String → Option JVal) :
    List MediaContentSummary :=
  (entriesOf content).filterMap (fun kv =>
    if jsTruthy kv.2 && isObjLike kv.2 then
      some { contentType := kv.1
             schema := match getField kv.2 "schema" with
               | some v => summarizeSchema v resolveRef 0 []
               | none => none
             examplev := getField kv.2 "example"
             examples := match getField kv.2 "examples" with
               | some exs =>
                 if jsTruthy exs && isObjLike exs then
                   parseExamplesObject (entriesOf exs)
                 else none
               | none => none }
    else none)

def summarizeRequestBody (operation : JVal) (resolveRef : String → Option JVal) :
    Option RequestBodySummary :=
  match getField operation "requestBody" with
  | some rb =>
    if jsTruthy rb && isObjLike rb then
      let contentOk := match getField rb "content" with
        | some c => jsTruthy c && isObjLike c
        | none => false
      let contentTypes : List String := match getField rb "content" with
        | some c => if jsTruthy c && isObjLike c then (entriesOf c).map (fun kv => kv.1) else []
        | none => []
      let contents : List MediaContentSummary := match getField rb "content" with
        | some c => if contentOk then summarizeMediaList c resolveRef else []
        | none => []
      some { required := match getField rb "required" with
               | some v => jsTruthy v
               | none => false
             contentTypes := contentTypes
             description := jsGetStr rb "description"
             contents := if contents.isEmpty then none else some contents }
    else none
  | none => none

/-- Status-key filter `^[1-5][0-9]{2}$`. -/
def statusKeyOk (s : String) : Bool :=
  match s.data with
  | [a, b, c] => ('1' ≤ a && a ≤ '5') && b.isDigit && c.isDigit
  | _ => false

/-- Decimal value of a status key that passed the filter (the
`Number.isNaN` recheck of the source can never fire on such keys). -/
def statusValue (s : String) : Nat :=
  match s.data with
  | [a, b, c] => 100 * (a.toNat - '0'.toNat) + 10 * (b.toNat - '0'.toNat) + (c.toNat - '0'.toNat)
  | _ => 0

/-- One `ResponseSummary` from a status/response entry, or `none` when
the entry is skipped by the loop guards. -/
def mkResponseSummary (resolveRef : String → Option JVal) (status : String)
    (response : JVal) : Option ResponseSummary :=
  if !statusKeyOk status then none
  else if !(jsTruthy response && isObjLike response) then none
  else
    let contents : List MediaContentSummary := match getField response "content" with
      | some c => if jsTruthy c && isObjLike c then summarizeMediaList c resolveRef else []
      | none => []
    some { status := status
           description := jsGetStr response "description"
           contentTypes :=
             if contents.isEmpty then none
             else some (contents.map (fun e => e.contentType))
           contents := if contents.isEmpty then none else some contents }

/-- `summarizeResponses`: the single loop of the source pushes each kept
summary into the success bucket (status 200–399) or the error bucket
(status 400 and above); statuses below 200 fall in neither.  Two passes
over the entry list build the same two buckets in the same order. -/
def summarizeResponses (operation : JVal) (resolveRef : String → Option JVal) :
    Option (List ResponseSummary) × Option (List ResponseSummary) :=
  match getField operation "responses" with
  | some responses =>
    if jsTruthy responses && isObjLike responses then
      let entries := entriesOf responses
      let success := entries.filterMap (fun kv =>
        match mkResponseSummary resolveRef kv.1 kv.2 with
        | some r => if 200 ≤ statusValue kv.1 && statusValue kv.1 < 400 then some r else none
        | none => none)
      let errors := entries.filterMap (fun kv =>
        match mkResponseSummary resolveRef kv.1 kv.2 with
        | some r => if 400 ≤ statusValue kv.1 then some r else none
        | none => none)
      (if success.isEmpty then none else some success,
       if errors.isEmpty then none else some errors)
    else (none, none)
  | none => (none, none)

-- ── Path matching (collectPathMatches) ──────────────────────────────

def HTTP_METHODS : List String :=
  ["get", "post", "put", "patch", "delete", "options", "head", "trace"]

/-- One element of the result of `collectPathMatches`.  The `summary`,
`description` and `operationId` fields are copied from the operation
object without a runtime type check in the source, so they stay raw
values here. -/
structure PathMatchSummary where
  path : String
  method : String
  summary : Option JVal
  description : Option JVal
  operationId : Option JVal
  tags : Option (List String)
  parameters : Option (List ParameterSummary)
  requestBody : Option RequestBodySummary
  successResponses : Option (List ResponseSummary)
  errorResponses : Option (List ResponseSummary)

def collectPathMatches (doc : JVal) (pathFilter : String) : List PathMatchSummary :=
  let normalizedFilter := lowerStr (jsTrim pathFilter)
  let resolveRef := createRefResolver doc
  if normalizedFilter = "" then []
  else
    let pathEntries := match getField doc "paths" with
      | some (.jnull) => []
      | some p => entriesOf p
      | none => []
    pathEntries.flatMap (fun pe =>
      if !(jsTruthy pe.2 && isObjLike pe.2) then []
      else if !jsIncludes (lowerStr pe.1) normalizedFilter then []
      else
        HTTP_METHODS.filterMap (fun method =>
          match getField pe.2 method with
          | some operation =>
            if !jsTruthy operation then none
            else
              let responses := summarizeResponses operation resolveRef
              some { path := pe.1
                     method := upperStr method
                     summary := getField operation "summary"
                     description := getField operation "description"
                     operationId := getField operation "operationId"
                     tags := match getField operation "tags" with
                       | some (.jarr _ es) =>
                         if es.all (fun t => match t with | .jstr _ => true | _ => false)
                         then some (es.filterMap (fun t => match t with | .jstr tv => some tv | _ => none))
                         else none
                       | _ => none
                     parameters := summarizeParameters operation resolveRef
                     requestBody := summarizeRequestBody operation resolveRef
                     successResponses := responses.1
                     errorResponses := responses.2 }
          | none => none))

-- ── Measures and predicates used by the statements ──────────────────

mutual
/-- Number of summary levels on the deepest populated
`properties`/`itemsSchema` chain of a summary; a leaf counts 1, so the
chain below the root has length `sdepthS σ - 1`. -/
def sdepthS : ParameterSchemaSummary → Nat
  | .mk _ _ _ _ _ _ _ _ _ _ pr isc => 1 + max (sdepthProps pr) (sdepthO isc)
def sdepthO : Option ParameterSchemaSummary → Nat
  | none => 0
  | some σ => sdepthS σ
def sdepthProps : Option (List SchemaObjectPropertySummary) → Nat
  | none => 0
  | some l => sdepthList l
def sdepthList : List SchemaObjectPropertySummary → Nat
  | [] => 0
  | p :: rest => max (sdepthProp p) (sdepthList rest)
def sdepthProp : SchemaObjectPropertySummary → Nat
  | .mk _ _ _ sc => sdepthO sc
end

/-- Distinctness of property names in a property list. -/
def nodupNames : List SchemaObjectPropertySummary → Bool
  | [] => true
  | p :: rest => !(rest.any (fun q => q.name = p.name)) && nodupNames rest

mutual
/-- Normal summaries: scalar string fields are never the empty string,
property lists are non-empty with pairwise distinct names, and every
nested summary again is normal and carries data.  Every summary
`summarizeSchema`/`mergeSchemaSummaries` builds has this shape, since
all scalar assignments there are truthiness-guarded and empty
property lists and data-less summaries are dropped. -/
def normalS : ParameterSchemaSummary → Bool
  | .mk t f ti d r it _ _ _ _ pr isc =>
    strOkB t && strOkB f && strOkB ti && strOkB d && strOkB r && strOkB it &&
    (match pr with
     | none => true
     | some l => !l.isEmpty && nodupNames l && normalPropList l) &&
    normalO isc
termination_by structural x => x
def normalO : Option ParameterSchemaSummary → Bool
  | none => true
  | some σ => normalS σ && hasData σ
termination_by structural x => x
def normalPropList : List SchemaObjectPropertySummary → Bool
  | [] => true
  | p :: rest => normalProp p && normalPropList rest
termination_by structural x => x
def normalProp : SchemaObjectPropertySummary → Bool
  | .mk _ _ _ sc => normalO sc
termination_by structural x => x
end

-- ── Concrete inputs used by the claims ──────────────────────────────

/-- Trivial resolver: no pointer resolves. -/
def noResolve : String → Option JVal := fun _ => none

def petDoc : JVal :=
  .jobj 0 [("components", .jobj 1 [("schemas", .jobj 2 [("Pet",
    .jobj 3 [("type", .jstr "object"),
             ("properties", .jobj 4 [("name", .jobj 5 [("type", .jstr "string")])])])])])]

def petRefSchema : JVal := .jobj 6 [("$ref", .jstr "#/components/schemas/Pet")]

/-- Document whose schema `A` has a property referring back to `A`. -/
def cycleDoc : JVal :=
  .jobj 0 [("components", .jobj 1 [("schemas", .jobj 2 [("A",
    .jobj 3 [("type", .jstr "object"),
             ("properties", .jobj 4 [("self", .jobj 5 [("$ref", .jstr "#/components/schemas/A")])])])])])]

/-- The node `#/components/schemas/A` of `cycleDoc` (tags shared with
the document, as JS shares the objects). -/
def cycleA : JVal :=
  .jobj 3 [("type", .jstr "object"),
           ("properties", .jobj 4 [("self", .jobj 5 [("$ref", .jstr "#/components/schemas/A")])])]

/-- One node (tag 7) reachable through two different properties. -/
def sharedLeaf : JVal := .jobj 7 [("type", .jstr "string")]

def twoPathSchema : JVal :=
  .jobj 8 [("properties", .jobj 9 [("a", sharedLeaf), ("b", sharedLeaf)])]

/-- Schema nested `n` levels deep in `properties`. -/
def deepSchema : Nat → JVal
  | 0 => .jobj 100 [("type", .jstr "string")]
  | n + 1 => .jobj (101 + n) [("type", .jstr "object"),
      ("properties", .jobj (201 + n) [("p", deepSchema n)])]

def stringTypeSummary : ParameterSchemaSummary :=
  .mk (some "string") none none none none none none none none none none none

def integerTypeSummary : ParameterSchemaSummary :=
  .mk (some "integer") none none none none none none none none none none none

/-- Summary whose only content is an `itemsSchema` that itself carries
no data. -/
def emptyItemsSummary : ParameterSchemaSummary :=
  .mk none none none none none none none none none none none (some emptySummary)

/-- Operation with responses `200`, `404` and `default`. -/
def sampleResponsesOp : JVal :=
  .jobj 10 [("responses", .jobj 11
    [("200", .jobj 12 [("description", .jstr "ok")]),
     ("404", .jobj 13 [("description", .jstr "not found")]),
     ("default", .jobj 14 [("description", .jstr "fallback")])])]

/-- Schema carrying an `items` key whose value is falsy. -/
def itemsNullSchema : JVal := .jobj 30 [("items", .jnull)]

/-- Schema whose `items` value is truthy and an object but summarizes
to nothing. -/
def emptyItemsSchema : JVal := .jobj 20 [("items", .jobj 21 [])]

/-- Status keys of an optional response bucket (an empty bucket is
`undefined` in the source). -/
def optStatuses : Option (List ResponseSummary) → List String
  | none => []
  | some l => l.map (fun r => r.status)

-- ── Theorems ────────────────────────────────────────────────────────

set_option maxRecDepth 40000
set_option maxHeartbeats 1000000

theorem sdepth_absorbEmpty (x : ParameterSchemaSummary) :
    sdepthS (absorbEmpty x) ≤ sdepthS x := by
  cases x with
  | mk t f ti d r it e ie df ex pr isc =>
    rcases pr with _ | ⟨_ | ⟨q, qs⟩⟩ <;>
      simp [absorbEmpty, sdepthS, sdepthProps, sdepthList]

theorem sdepth_withRef (c : ParameterSchemaSummary) (r : Option String) :
    sdepthS (withRef c r) = sdepthS c := by
  cases c; rfl

theorem sdepthList_append (l1 l2 : List SchemaObjectPropertySummary) :
    sdepthList (l1 ++ l2) = max (sdepthList l1) (sdepthList l2) := by
  induction l1 with
  | nil => simp [sdepthList]
  | cons p t ih => simp [sdepthList, ih, Nat.max_assoc]

theorem sdepthProp_of_get (l : List SchemaObjectPropertySummary) (i : Nat)
    (e : SchemaObjectPropertySummary) (h : l.get? i = some e) :
    sdepthProp e ≤ sdepthList l := by
  induction l generalizing i with
  | nil => exact absurd h (by simp)
  | cons p t ih =>
    cases i with
    | zero =>
      have he : p = e := by
        have : some p = some e := h
        exact Option.some.inj this
      subst he
      simp [sdepthList]
    | succ j =>
      have := ih j h
      simp [sdepthList]
      omega

theorem sdepthList_set_le (l : List SchemaObjectPropertySummary) (i : Nat)
    (v : SchemaObjectPropertySummary) :
    sdepthList (l.set i v) ≤ max (sdepthList l) (sdepthProp v) := by
  induction l generalizing i with
  | nil => simp [sdepthList]
  | cons p t ih =>
    cases i with
    | zero => simp [sdepthList]; omega
    | succ j =>
      simp only [List.set]
      have := ih j
      simp [sdepthList]
      omega

mutual
theorem sdepth_mergeStep : ∀ (r s : ParameterSchemaSummary),
    sdepthS (mergeStep r s) ≤ max (sdepthS r) (sdepthS s)
  | .mk t f ti d r0 it e ie df ex pr isc, .mk t' f' ti' d' r' it' e' ie' df' ex' pr' isc' => by
    rcases pr' with _ | ⟨_ | ⟨q, qs⟩⟩ <;> rcases pr with _ | ⟨_ | ⟨b, bs⟩⟩ <;>
      rcases isc' with _ | y <;> rcases isc with _ | x <;>
      simp only [mergeStep, sdepthS, sdepthProps, sdepthO, sdepthList] <;>
      first
      | omega
      | (have h1 := sdepth_mergeTwoSummaries (some x) (some y)
         have h2 := sdepth_mergePropsList (b :: bs) (q :: qs)
         simp only [sdepthO, sdepthList] at h1 h2 ⊢
         omega)
      | (have h1 := sdepth_mergeTwoSummaries (some x) (some y)
         simp only [sdepthO] at h1 ⊢
         omega)
      | (have h2 := sdepth_mergePropsList (b :: bs) (q :: qs)
         simp only [sdepthList] at h2 ⊢
         omega)
  termination_by r s => sizeOf s

theorem sdepth_mergeTwoSummaries : ∀ (a b : Option ParameterSchemaSummary),
    sdepthO (mergeTwoSummaries a b) ≤ max (sdepthO a) (sdepthO b)
  | none, none => by simp [mergeTwoSummaries, sdepthO]
  | some x, none => by
    have h2 := sdepth_absorbEmpty x
    by_cases h : hasData (absorbEmpty x) = true <;>
      simp [mergeTwoSummaries, h, sdepthO] <;> omega
  | none, some y => by
    have h2 := sdepth_absorbEmpty y
    by_cases h : hasData (absorbEmpty y) = true <;>
      simp [mergeTwoSummaries, h, sdepthO] <;> omega
  | some x, some y => by
    have h1 := sdepth_mergeStep (absorbEmpty x) y
    have h2 := sdepth_absorbEmpty x
    by_cases h : hasData (mergeStep (absorbEmpty x) y) = true <;>
      simp only [mergeTwoSummaries, h, if_true, if_false, Bool.false_eq_true, sdepthO] <;>
      simp only [sdepthO] at h1 <;> omega
  termination_by a b => sizeOf b

theorem sdepth_mergePropsList : ∀ (bs inc : List SchemaObjectPropertySummary),
    sdepthList (mergePropsList bs inc) ≤ max (sdepthList bs) (sdepthList inc)
  | bs, [] => by simp [mergePropsList]
  | bs, q :: qs => by
    have h1 := sdepth_mergePropsList (insertProperty bs q) qs
    have h2 := sdepth_insertProperty bs q
    simp only [mergePropsList]
    simp only [sdepthList] at h1 h2 ⊢
    omega
  termination_by bs inc => sizeOf inc

theorem sdepth_insertProperty : ∀ (bs : List SchemaObjectPropertySummary)
    (q : SchemaObjectPropertySummary),
    sdepthList (insertProperty bs q) ≤ max (sdepthList bs) (sdepthProp q)
  | bs, .mk n rq ds sc => by
    simp only [insertProperty]
    cases hix : lastIdxNamed bs n with
    | none =>
      simp [sdepthList_append, sdepthList, sdepthProp]
    | some ix =>
      cases hget : bs.get? ix with
      | none =>
        simp only [List.get?_eq_getElem?] at hget
        simp [hget, sdepthList]
      | some e =>
        cases e with
        | mk n0 rq0 ds0 sc0 =>
          simp only [hget]
          have h1 := sdepth_mergeTwoSummaries sc0 sc
          have h2 := sdepthList_set_le bs ix
            (.mk n (rq0 || rq) (if !jsStrTruthy ds0 && jsStrTruthy ds then ds else ds0)
              (mergeTwoSummaries sc0 sc))
          have h3 := sdepthProp_of_get bs ix _ hget
          simp only [sdepthProp, sdepthO] at h1 h2 h3 ⊢
          omega
  termination_by bs q => sizeOf q
end

theorem sdepth_emptySummary : sdepthS emptySummary = 1 := by rfl

theorem sdepth_foldl (l : List ParameterSchemaSummary) :
    ∀ (acc : ParameterSchemaSummary) (K : Nat), sdepthS acc ≤ K →
      (∀ x ∈ l, sdepthS x ≤ K) → sdepthS (l.foldl mergeStep acc) ≤ K := by
  induction l with
  | nil => intro acc K h _; exact h
  | cons b t ih =>
    intro acc K h hl
    have hb := sdepth_mergeStep acc b
    have : sdepthS (mergeStep acc b) ≤ K := by
      have := hl b (by simp)
      omega
    exact ih (mergeStep acc b) K this (fun x hx => hl x (by simp [hx]))

theorem sdepth_mergeSchemaSummaries (l : List (Option ParameterSchemaSummary))
    (K : Nat) (hK : 1 ≤ K) (h : ∀ σ, some σ ∈ l → sdepthS σ ≤ K) :
    sdepthO (mergeSchemaSummaries l) ≤ K := by
  rw [mergeSchemaSummaries]
  by_cases he : (l.filterMap id).isEmpty
  · simp [he, sdepthO]
  · simp only [he, Bool.false_eq_true, if_false]
    have hfold : sdepthS ((l.filterMap id).foldl mergeStep emptySummary) ≤ K := by
      refine sdepth_foldl _ emptySummary K (by rw [sdepth_emptySummary]; omega) ?_
      intro x hx
      rcases List.mem_filterMap.mp hx with ⟨a, ha, hax⟩
      subst hax
      exact h x ha
    by_cases hd : hasData ((l.filterMap id).foldl mergeStep emptySummary) = true <;>
      simp [hd, sdepthO, hfold]

theorem sdepthList_map_entries (kvs : List (String × JVal))
    (fn : (String × JVal) → SchemaObjectPropertySummary) (K : Nat)
    (h : ∀ kv ∈ kvs, sdepthProp (fn kv) ≤ K) :
    sdepthList (kvs.map fn) ≤ K := by
  induction kvs with
  | nil => simp [sdepthList]
  | cons kv t ih =>
    simp only [List.map, sdepthList]
    have h1 := h kv (by simp)
    have h2 := ih (fun x hx => h x (by simp [hx]))
    omega

theorem sdepth_mk_le (t2 f0 ti0 d2 r0 it0 : Option String)
    (e0 ie0 : Option (List JVal)) (df0 ex0 : Option JVal)
    (props0 : Option (List SchemaObjectPropertySummary))
    (isum : Option ParameterSchemaSummary) (K : Nat)
    (hP : sdepthProps props0 ≤ K) (hI : sdepthO isum ≤ K) :
    sdepthS (.mk t2 f0 ti0 d2 r0 it0 e0 ie0 df0 ex0 props0 isum) ≤ K + 1 := by
  simp only [sdepthS]
  omega

theorem sdepth_sumItems (recur : JVal → Nat → List Nat → Option ParameterSchemaSummary)
    (schema : JVal) (depth : Nat) (seen' : List Nat) (K : Nat)
    (h : ∀ v d sn, sdepthO (recur v d sn) ≤ K) :
    sdepthO (sumItems recur schema depth seen') ≤ K := by
  rw [sumItems]
  rcases hit : getField schema "items" with _ | iv
  · simp [sdepthO]
  · by_cases ht : jsTruthy iv = true
    · simp only [ht, if_true]
      exact h iv (depth + 1) seen'
    · simp [ht, sdepthO]

theorem sdepth_sumProps (recur : JVal → Nat → List Nat → Option ParameterSchemaSummary)
    (schema : JVal) (depth : Nat) (seen' : List Nat) (K : Nat)
    (h : ∀ v d sn, sdepthO (recur v d sn) ≤ K) :
    sdepthProps (sumProps recur schema depth seen') ≤ K := by
  rw [sumProps]
  rcases hp : getField schema "properties" with _ | pv
  · simp [sdepthProps]
  · by_cases ho : (jsTruthy pv && isObjLike pv) = true
    · simp only [ho, if_true]
      rcases hmap : (entriesOf pv).map _ with _ | ⟨p, ps⟩
      · simp [sdepthProps]
      · simp only [sdepthProps]
        rw [← hmap]
        refine sdepthList_map_entries _ _ K ?_
        intro kv _
        simp only [sdepthProp]
        exact h kv.2 (depth + 1) seen'
    · simp [ho, sdepthProps]

theorem sdepth_sumDirect (recur : JVal → Nat → List Nat → Option ParameterSchemaSummary)
    (schema : JVal) (depth : Nat) (seen' : List Nat) (K : Nat)
    (h : ∀ v d sn, sdepthO (recur v d sn) ≤ K) :
    sdepthS (sumDirect recur schema depth seen') ≤ K + 1 := by
  rw [sumDirect]
  apply sdepth_mk_le
  · exact sdepth_sumProps recur schema depth seen' K h
  · exact sdepth_sumItems recur schema depth seen' K h

theorem sdepth_sumRefContribution (recur : JVal → Nat → List Nat → Option ParameterSchemaSummary)
    (schema : JVal) (rr : String → Option JVal) (depth : Nat) (seen' : List Nat) (K : Nat)
    (h : ∀ v d sn, sdepthO (recur v d sn) ≤ K) :
    ∀ σ ∈ sumRefContribution recur schema rr depth seen', sdepthS σ ≤ K := by
  intro σ hσ
  rw [sumRefContribution] at hσ
  repeat split at hσ
  any_goals simp at hσ
  rename_i hrec
  subst hσ
  obtain ⟨v, hv⟩ : ∃ v, recur v (depth + 1) seen' = some σ := ⟨_, hrec⟩
  have := h v (depth + 1) seen'
  rw [hv] at this
  simpa [sdepthO] using this

theorem sdepth_variantsOf (recur : JVal → Nat → List Nat → Option ParameterSchemaSummary)
    (depth : Nat) (seen' : List Nat) (K : Nat) (raw : Option JVal)
    (h : ∀ v d sn, sdepthO (recur v d sn) ≤ K) :
    ∀ σ ∈ (match raw with
            | some (.jarr id es) => es.filterMap (fun v => recur v (depth + 1) seen')
            | _ => []), sdepthS σ ≤ K := by
  intro σ hσ
  match raw with
  | none => simp at hσ
  | some (.jarr aid es) =>
    rcases List.mem_filterMap.mp hσ with ⟨v, _, hv⟩
    have := h v (depth + 1) seen'
    rw [hv] at this
    simpa [sdepthO] using this
  | some .jnull | some (.jbool _) | some (.jnum _) | some (.jstr _) | some (.jobj _ _) =>
    simp at hσ

theorem sdepth_sumVariants (recur : JVal → Nat → List Nat → Option ParameterSchemaSummary)
    (schema : JVal) (depth : Nat) (seen' : List Nat) (K : Nat)
    (h : ∀ v d sn, sdepthO (recur v d sn) ≤ K) :
    ∀ σ ∈ sumVariants recur schema depth seen', sdepthS σ ≤ K := by
  intro σ hσ
  rw [sumVariants] at hσ
  simp only [List.mem_append] at hσ
  rcases hσ with (hσ | hσ) | hσ
  · exact sdepth_variantsOf recur depth seen' K _ h σ hσ
  · exact sdepth_variantsOf recur depth seen' K _ h σ hσ
  · exact sdepth_variantsOf recur depth seen' K _ h σ hσ

theorem sdepth_sumBody (recur : JVal → Nat → List Nat → Option ParameterSchemaSummary)
    (schema : JVal) (rr : String → Option JVal) (depth : Nat) (seen' : List Nat) (K : Nat)
    (h : ∀ v d sn, sdepthO (recur v d sn) ≤ K) :
    sdepthO (sumBody recur schema rr depth seen') ≤ K + 1 := by
  unfold sumBody
  have hmerge : sdepthO (mergeSchemaSummaries
      ((sumContributions recur schema rr depth seen').map some)) ≤ K + 1 := by
    refine sdepth_mergeSchemaSummaries _ (K + 1) (by omega) ?_
    intro σ hσ
    have hσc : σ ∈ sumContributions recur schema rr depth seen' := by
      rcases List.mem_map.mp hσ with ⟨a, ha, hax⟩
      have : a = σ := Option.some.inj hax
      subst this
      exact ha
    rw [sumContributions] at hσc
    simp only [List.mem_append] at hσc
    rcases hσc with (hσc | hσc) | hσc
    · by_cases hd : hasData (sumDirect recur schema depth seen') = true
      · rw [if_pos hd] at hσc
        have : σ = sumDirect recur schema depth seen' := by simpa using hσc
        subst this
        exact sdepth_sumDirect recur schema depth seen' K h
      · rw [if_neg hd] at hσc; simp at hσc
    · have := sdepth_sumRefContribution recur schema rr depth seen' K h σ hσc
      omega
    · have := sdepth_sumVariants recur schema depth seen' K h σ hσc
      omega
  rcases hm : mergeSchemaSummaries ((sumContributions recur schema rr depth seen').map some)
    with _ | c
  · simp [sdepthO]
  · rw [hm] at hmerge
    rcases hr : jsGetStr schema "$ref" with _ | r
    · simpa [sdepthO] using hmerge
    · by_cases hc : (r ≠ "" && !jsStrTruthy c.ref) = true <;>
        simp only [hc, if_true, if_false, Bool.false_eq_true] <;>
      · simp only [sdepthO, sdepth_withRef] at *
        omega

theorem sdepth_sumGo : ∀ (fuel : Nat) (schema : JVal) (rr : String → Option JVal)
    (depth : Nat) (seen : List Nat), sdepthO (sumGo fuel schema rr depth seen) ≤ fuel := by
  intro fuel
  induction fuel with
  | zero =>
    intro schema rr depth seen
    rw [sumGo]
    rcases h : nodeIdOf schema with _ | nid
    · simp [sdepthO]
    · by_cases hg : (decide (nid ∈ seen) || decide (MAX_SCHEMA_DEPTH < depth)) = true <;>
        simp [hg, sdepthO]
  | succ fuel ih =>
    intro schema rr depth seen
    rw [sumGo]
    rcases h : nodeIdOf schema with _ | nid
    · simp [sdepthO]
    · by_cases hg : (decide (nid ∈ seen) || decide (MAX_SCHEMA_DEPTH < depth)) = true
      · simp [hg, sdepthO]
      · simp only [hg, Bool.false_eq_true, if_false]
        exact sdepth_sumBody _ schema rr depth (nid :: seen) fuel
          (fun v d sn => ih v rr d sn)

/-- Claim C1: a root summary never nests `properties`/`itemsSchema`
chains longer than `MAX_SCHEMA_DEPTH` (= 3) levels beyond the root
(`sdepthO ≤ 4` counting the root itself); any node beyond the bound is
summarized as `none` — nothing further, no properties, no itemsSchema;
and the schema nested 10 levels deep in `properties` summarizes to a
chain of exactly 3 levels beyond the root. -/
theorem claim_C1 :
    (∀ (schema : JVal) (rr : String → Option JVal) (seen : List Nat),
      sdepthO (summarizeSchema schema rr 0 seen) ≤ MAX_SCHEMA_DEPTH + 1) ∧
    (∀ (schema : JVal) (rr : String → Option JVal) (depth : Nat) (seen : List Nat),
      MAX_SCHEMA_DEPTH < depth → summarizeSchema schema rr depth seen = none) ∧
    sdepthO (summarizeSchema (deepSchema 10) noResolve 0 []) = MAX_SCHEMA_DEPTH + 1 := by
  refine ⟨?_, ?_, by rfl⟩
  · intro schema rr seen
    have := sdepth_sumGo (MAX_SCHEMA_DEPTH + 1 - 0) schema rr 0 seen
    simpa [summarizeSchema] using this
  · intro schema rr depth seen hd
    rw [summarizeSchema, sumGo]
    rcases h : nodeIdOf schema with _ | nid
    · simp [h]
    · simp [h, hd]

/-- Witness for claim C1: the beyond-the-bound conjunct applied at a
concrete schema and depth. -/
theorem claim_C1_witness :
    MAX_SCHEMA_DEPTH < 7 ∧ summarizeSchema (deepSchema 2) noResolve 7 [] = none :=
  ⟨by decide, claim_C1.2.1 (deepSchema 2) noResolve 7 [] (by decide)⟩


-- Field projections of one merge step.

theorem mergeStep_type (a b : ParameterSchemaSummary) :
    (mergeStep a b).type = scalarKeep a.type b.type := by
  cases a; cases b; rfl

theorem mergeStep_format (a b : ParameterSchemaSummary) :
    (mergeStep a b).format = scalarKeep a.format b.format := by
  cases a; cases b; rfl

theorem mergeStep_title (a b : ParameterSchemaSummary) :
    (mergeStep a b).title = scalarKeep a.title b.title := by
  cases a; cases b; rfl

theorem mergeStep_ref (a b : ParameterSchemaSummary) :
    (mergeStep a b).ref = scalarKeep a.ref b.ref := by
  cases a; cases b; rfl

theorem mergeStep_itemsType (a b : ParameterSchemaSummary) :
    (mergeStep a b).itemsType = scalarKeep a.itemsType b.itemsType := by
  cases a; cases b; rfl

theorem mergeStep_description (a b : ParameterSchemaSummary) :
    (mergeStep a b).description = descKeep a.description b.description := by
  cases a; cases b; rfl

theorem mergeStep_enumv (a b : ParameterSchemaSummary) :
    (mergeStep a b).enumv = presKeep a.enumv b.enumv := by
  cases a; cases b; rfl

theorem mergeStep_itemsEnum (a b : ParameterSchemaSummary) :
    (mergeStep a b).itemsEnum = presKeep a.itemsEnum b.itemsEnum := by
  cases a; cases b; rfl

theorem mergeStep_dflt (a b : ParameterSchemaSummary) :
    (mergeStep a b).dflt = presKeep a.dflt b.dflt := by
  cases a; cases b; rfl

theorem mergeStep_examplev (a b : ParameterSchemaSummary) :
    (mergeStep a b).examplev = presKeep a.examplev b.examplev := by
  cases a; cases b; rfl

theorem scalarKeep_truthy {r : Option String} (s : Option String)
    (h : jsStrTruthy r = true) : scalarKeep r s = r := by
  simp [scalarKeep, h]

theorem scalarKeep_none (o : Option String) : scalarKeep none o = strKeep o := by
  cases o with
  | none => rfl
  | some str =>
    by_cases hs : str = "" <;> simp [scalarKeep, strKeep, jsStrTruthy, hs]

theorem descKeep_none (o : Option String) : descKeep none o = strKeep o := by
  cases o with
  | none => rfl
  | some str =>
    by_cases hs : str = "" <;> simp [descKeep, strKeep, jsStrTruthy, hs]

theorem presKeep_none {α : Type} (o : Option α) : presKeep none o = o := by
  cases o <;> rfl

/-- Folding a contribution into the fresh `{}` accumulator is the
`absorbEmpty` copy: this ties the internal binary merge to the
variadic source function. -/
theorem mergeStep_empty (x : ParameterSchemaSummary) :
    mergeStep emptySummary x = absorbEmpty x := by
  cases x with
  | mk t f ti d r it e ie df ex pr isc =>
    rcases pr with _ | ⟨_ | ⟨q, qs⟩⟩ <;> rcases isc with _ | y <;>
      simp [mergeStep, absorbEmpty, emptySummary, scalarKeep_none, descKeep_none,
        presKeep_none]

/-- The two-argument `mergeSchemaSummaries(a, b)` call sites behave as
the variadic definition dictates. -/
theorem mergeTwoSummaries_spec (a b : Option ParameterSchemaSummary) :
    mergeTwoSummaries a b = mergeSchemaSummaries [a, b] := by
  cases a <;> cases b <;>
    simp [mergeTwoSummaries, mergeSchemaSummaries, mergeStep_empty]

/-- Claim C3: for the scalar fields `type`, `format`, `title` and `ref`,
`mergeSchemaSummaries` is first-non-absent-wins, left to right: once the
accumulated result holds a truthy scalar, folding any further
contributions never changes it; merging `{type: "string"}` then
`{type: "integer"}` yields `"string"`, and the opposite order yields
`"integer"`. -/
theorem claim_C3 :
    (∀ (acc : ParameterSchemaSummary) (l : List ParameterSchemaSummary),
      jsStrTruthy acc.type = true → (l.foldl mergeStep acc).type = acc.type) ∧
    (∀ (acc : ParameterSchemaSummary) (l : List ParameterSchemaSummary),
      jsStrTruthy acc.format = true → (l.foldl mergeStep acc).format = acc.format) ∧
    (∀ (acc : ParameterSchemaSummary) (l : List ParameterSchemaSummary),
      jsStrTruthy acc.title = true → (l.foldl mergeStep acc).title = acc.title) ∧
    (∀ (acc : ParameterSchemaSummary) (l : List ParameterSchemaSummary),
      jsStrTruthy acc.ref = true → (l.foldl mergeStep acc).ref = acc.ref) ∧
    mergeSchemaSummaries [some stringTypeSummary, some integerTypeSummary] =
      some stringTypeSummary ∧
    mergeSchemaSummaries [some integerTypeSummary, some stringTypeSummary] =
      some integerTypeSummary := by
  refine ⟨?_, ?_, ?_, ?_, by rfl, by rfl⟩
  · intro acc l
    induction l generalizing acc with
    | nil => intro _; rfl
    | cons b l ih =>
      intro h
      have hb : (mergeStep acc b).type = acc.type := by
        rw [mergeStep_type, scalarKeep_truthy _ h]
      calc ((b :: l).foldl mergeStep acc).type
          = (l.foldl mergeStep (mergeStep acc b)).type := rfl
        _ = (mergeStep acc b).type := ih _ (by rw [hb]; exact h)
        _ = acc.type := hb
  · intro acc l
    induction l generalizing acc with
    | nil => intro _; rfl
    | cons b l ih =>
      intro h
      have hb : (mergeStep acc b).format = acc.format := by
        rw [mergeStep_format, scalarKeep_truthy _ h]
      calc ((b :: l).foldl mergeStep acc).format
          = (l.foldl mergeStep (mergeStep acc b)).format := rfl
        _ = (mergeStep acc b).format := ih _ (by rw [hb]; exact h)
        _ = acc.format := hb
  · intro acc l
    induction l generalizing acc with
    | nil => intro _; rfl
    | cons b l ih =>
      intro h
      have hb : (mergeStep acc b).title = acc.title := by
        rw [mergeStep_title, scalarKeep_truthy _ h]
      calc ((b :: l).foldl mergeStep acc).title
          = (l.foldl mergeStep (mergeStep acc b)).title := rfl
        _ = (mergeStep acc b).title := ih _ (by rw [hb]; exact h)
        _ = acc.title := hb
  · intro acc l
    induction l generalizing acc with
    | nil => intro _; rfl
    | cons b l ih =>
      intro h
      have hb : (mergeStep acc b).ref = acc.ref := by
        rw [mergeStep_ref, scalarKeep_truthy _ h]
      calc ((b :: l).foldl mergeStep acc).ref
          = (l.foldl mergeStep (mergeStep acc b)).ref := rfl
        _ = (mergeStep acc b).ref := ih _ (by rw [hb]; exact h)
        _ = acc.ref := hb

/-- Witness for claim C3: the universally quantified conjuncts applied
at a concrete truthy accumulator. -/
theorem claim_C3_witness :
    jsStrTruthy stringTypeSummary.type = true ∧
    ([integerTypeSummary].foldl mergeStep stringTypeSummary).type =
      stringTypeSummary.type :=
  ⟨by rfl, claim_C3.1 stringTypeSummary [integerTypeSummary] (by rfl)⟩

/-- Claim C5: summarizing `{"$ref": "#/components/schemas/Pet"}` in a
document defining `Pet` as an object with a string property `name`
yields an object summary with exactly that property and the original
pointer kept in `ref`. -/
theorem claim_C5 :
    summarizeSchema petRefSchema (createRefResolver petDoc) 0 [] =
      some (.mk (some "object") none none none (some "#/components/schemas/Pet") none
        none none none none
        (some [.mk "name" false none (some stringTypeSummary)])
        none) := by rfl

/-- Claim C10: `collectPathMatches` trims (and lowercases) the filter
and answers the empty match list whenever the trimmed filter is empty,
even though the empty string is a substring of every path key. -/
theorem claim_C10 (doc : JVal) (pathFilter : String) (h : jsTrim pathFilter = "") :
    collectPathMatches doc pathFilter = [] := by
  have hl : lowerStr (jsTrim pathFilter) = "" := by rw [h]; rfl
  simp [collectPathMatches, hl]

/-- Witness for claim C10 at a whitespace-only filter. -/
theorem claim_C10_witness :
    jsTrim "   " = "" ∧ collectPathMatches petDoc "   " = [] :=
  ⟨by rfl, claim_C10 petDoc "   " (by rfl)⟩

/-- Claim C2: `summarizeSchema` is total (it is a Lean function), and in
particular the self-referential schema `A` of `cycleDoc`, whose property
`self` points back to `A` via `$ref`, summarizes to the concrete
bounded-depth value below.  A node whose identity tag already lies on
the current recursion path is answered `none` at once (the tag is added
before the recursive calls and dropped on return, since only the calls
receive the extended path).  The shared node `sharedLeaf`, reachable
through the two different properties `a` and `b` of `twoPathSchema`, is
fully summarized on each of the two paths. -/
theorem claim_C2 :
    summarizeSchema cycleA (createRefResolver cycleDoc) 0 [] =
      some (.mk (some "object") none none none none none none none none none
        (some [.mk "self" false none
          (some (.mk none none none none (some "#/components/schemas/A")
            none none none none none none none))])
        none) ∧
    (∀ (i : Nat) (fs : List (String × JVal)) (rr : String → Option JVal)
       (d : Nat) (seen : List Nat),
      i ∈ seen → summarizeSchema (.jobj i fs) rr d seen = none) ∧
    summarizeSchema twoPathSchema noResolve 0 [] =
      some (.mk (some "object") none none none none none none none none none
        (some [.mk "a" false none (some stringTypeSummary),
               .mk "b" false none (some stringTypeSummary)])
        none) := by
  refine ⟨by rfl, ?_, by rfl⟩
  intro i fs rr d seen h
  unfold summarizeSchema
  rw [sumGo]
  simp only [nodeIdOf]
  simp [h]

/-- Witness for claim C2: the path guard applied to a node whose tag is
on the current path. -/
theorem claim_C2_witness :
    (3 : Nat) ∈ [2, 3] ∧
    summarizeSchema (.jobj 3 [("type", .jstr "string")]) noResolve 1 [2, 3] = none :=
  ⟨by decide, claim_C2.2.1 3 [("type", .jstr "string")] noResolve 1 [2, 3] (by decide)⟩

theorem optStatuses_ite (l : List ResponseSummary) :
    optStatuses (if l.isEmpty then none else some l) = l.map (fun r => r.status) := by
  by_cases h : l.isEmpty
  · rw [if_pos h]
    cases l with
    | nil => rfl
    | cons a t => simp [List.isEmpty] at h
  · rw [if_neg h]
    rfl

theorem mkResponseSummary_notStatus (rr : String → Option JVal) (k : String) (v : JVal)
    (h : statusKeyOk k = false) : mkResponseSummary rr k v = none := by
  simp [mkResponseSummary, h]

theorem mkResponseSummary_status (rr : String → Option JVal) (k : String) (v : JVal)
    (r : ResponseSummary) (h : mkResponseSummary rr k v = some r) : r.status = k := by
  by_cases h1 : statusKeyOk k
  · by_cases h2 : jsTruthy v && isObjLike v
    · simp [mkResponseSummary, h1, h2] at h
      rw [← h]
    · simp [mkResponseSummary, h1, h2] at h
  · simp [mkResponseSummary, h1] at h

/-- Claim C7: for every operation whose `responses` field is an object,
the success bucket holds exactly the response entries whose key matches
`^[1-5][0-9]{2}$`, whose value is an object, and whose numeric value
lies in 200–399, in order; the error bucket those with numeric value
400 and above; a key that fails the pattern (such as `"default"`) is
summarized by neither, and the `{200, 404, default}` example yields one
success entry (200) and one error entry (404). -/
theorem claim_C7 :
    (∀ (op : JVal) (rr : String → Option JVal) (rid : Nat)
       (entries : List (String × JVal)),
      getField op "responses" = some (.jobj rid entries) →
      optStatuses (summarizeResponses op rr).1 =
        entries.filterMap (fun kv =>
          if statusKeyOk kv.1 && (jsTruthy kv.2 && isObjLike kv.2) &&
             (200 ≤ statusValue kv.1 && statusValue kv.1 < 400)
          then some kv.1 else none) ∧
      optStatuses (summarizeResponses op rr).2 =
        entries.filterMap (fun kv =>
          if statusKeyOk kv.1 && (jsTruthy kv.2 && isObjLike kv.2) &&
             400 ≤ statusValue kv.1
          then some kv.1 else none)) ∧
    (∀ (rr : String → Option JVal) (k : String) (v : JVal),
      statusKeyOk k = false → mkResponseSummary rr k v = none) ∧
    optStatuses (summarizeResponses sampleResponsesOp noResolve).1 = ["200"] ∧
    optStatuses (summarizeResponses sampleResponsesOp noResolve).2 = ["404"] := by
  refine ⟨?_, mkResponseSummary_notStatus, by rfl, by rfl⟩
  intro op rr rid entries h
  have hc : (jsTruthy (JVal.jobj rid entries) && isObjLike (JVal.jobj rid entries)) = true := by rfl
  constructor
  · simp only [summarizeResponses, h, hc, if_true, entriesOf]
    rw [optStatuses_ite, List.map_filterMap]
    congr 1
    funext kv
    by_cases h1 : statusKeyOk kv.1
    · by_cases h2 : jsTruthy kv.2 && isObjLike kv.2
      · by_cases h3 : 200 ≤ statusValue kv.1 && statusValue kv.1 < 400 <;>
          simp [mkResponseSummary, h1, h2, h3]
      · simp [mkResponseSummary, h1, h2]
    · simp [mkResponseSummary, h1]
  · simp only [summarizeResponses, h, hc, if_true, entriesOf]
    rw [optStatuses_ite, List.map_filterMap]
    congr 1
    funext kv
    by_cases h1 : statusKeyOk kv.1
    · by_cases h2 : jsTruthy kv.2 && isObjLike kv.2
      · by_cases h3 : 400 ≤ statusValue kv.1 <;>
          simp [mkResponseSummary, h1, h2, h3]
      · simp [mkResponseSummary, h1, h2]
    · simp [mkResponseSummary, h1]

/-- Witness for claim C7: the characterization applied to the concrete
responses object of `sampleResponsesOp`. -/
theorem claim_C7_witness :
    getField sampleResponsesOp "responses" = some (.jobj 11
      [("200", .jobj 12 [("description", .jstr "ok")]),
       ("404", .jobj 13 [("description", .jstr "not found")]),
       ("default", .jobj 14 [("description", .jstr "fallback")])]) ∧
    optStatuses (summarizeResponses sampleResponsesOp noResolve).1 =
      [("200", JVal.jobj 12 [("description", .jstr "ok")]),
       ("404", .jobj 13 [("description", .jstr "not found")]),
       ("default", .jobj 14 [("description", .jstr "fallback")])].filterMap (fun kv =>
          if statusKeyOk kv.1 && (jsTruthy kv.2 && isObjLike kv.2) &&
             (200 ≤ statusValue kv.1 && statusValue kv.1 < 400)
          then some kv.1 else none) :=
  ⟨by rfl,
   (claim_C7.1 sampleResponsesOp noResolve 11 _ (by rfl)).1⟩

theorem strKeep_idem (o : Option String) : strKeep (strKeep o) = strKeep o := by
  cases o with
  | none => rfl
  | some str => by_cases hs : str = "" <;> simp [strKeep, hs]

/-- Counterexample for claim C8 as stated: these schemas carry an
`items` key and no `type`, yet nothing is folded and the type is not
defaulted to `"array"`: the whole summary is `none`, both when the
`items` value is falsy (`null`) and when it is a truthy object whose
recursive summary is empty. -/
theorem claim_C8_cex :
    getField itemsNullSchema "items" = some JVal.jnull ∧
    jsGetStr itemsNullSchema "type" = none ∧
    summarizeSchema itemsNullSchema noResolve 0 [] = none ∧
    getField emptyItemsSchema "items" = some (.jobj 21 []) ∧
    summarizeSchema emptyItemsSchema noResolve 0 [] = none :=
  ⟨by rfl, by rfl, by rfl, by rfl, by rfl⟩

theorem hasData_absorbEmpty_items (t f ti d r it : Option String)
    (e ie : Option (List JVal)) (df ex : Option JVal)
    (pr : Option (List SchemaObjectPropertySummary)) (y : ParameterSchemaSummary) :
    hasData (absorbEmpty (.mk t f ti d r it e ie df ex pr (some y))) = true := by
  rcases pr with _ | ⟨_ | ⟨q, qs⟩⟩ <;> simp [absorbEmpty, hasData]

theorem mergeSingle (d : ParameterSchemaSummary) (h : hasData (absorbEmpty d) = true) :
    mergeSchemaSummaries [some d] = some (absorbEmpty d) := by
  simp [mergeSchemaSummaries, mergeStep_empty, h]

theorem hasDataItemsMk (t f ti d r it : Option String)
    (e ie : Option (List JVal)) (df ex : Option JVal)
    (pr : Option (List SchemaObjectPropertySummary)) (y : ParameterSchemaSummary) :
    hasData (.mk t f ti d r it e ie df ex pr (some y)) = true := by
  simp [hasData]

theorem mergeSingleItems (t f ti d r it : Option String)
    (e ie : Option (List JVal)) (df ex : Option JVal) (y : ParameterSchemaSummary) :
    mergeSchemaSummaries [some (.mk t f ti d r it e ie df ex none (some y))] =
      some (absorbEmpty (.mk t f ti d r it e ie df ex none (some y))) :=
  mergeSingle _ (hasData_absorbEmpty_items t f ti d r it e ie df ex none y)

set_option maxHeartbeats 8000000 in
theorem claim_C8_amended
    (oid : Nat) (fields : List (String × JVal)) (rr : String → Option JVal)
    (depth : Nat) (seen : List Nat) (iv : JVal) (σi : ParameterSchemaSummary)
    (hdepth : depth ≤ MAX_SCHEMA_DEPTH)
    (hseen : oid ∉ seen)
    (hitems : getField (.jobj oid fields) "items" = some iv)
    (htruthy : jsTruthy iv = true)
    (href : jsGetStr (.jobj oid fields) "$ref" = none)
    (hallOf : getField (.jobj oid fields) "allOf" = none)
    (honeOf : getField (.jobj oid fields) "oneOf" = none)
    (hanyOf : getField (.jobj oid fields) "anyOf" = none)
    (hprops : getField (.jobj oid fields) "properties" = none)
    (hisum : summarizeSchema iv rr (depth + 1) (oid :: seen) = some σi) :
    ∃ σ, summarizeSchema (.jobj oid fields) rr depth seen = some σ ∧
      σ.itemsSchema = some σi ∧
      σ.itemsType = (if jsStrTruthy σi.type then σi.type else none) ∧
      σ.itemsEnum = σi.enumv ∧
      (jsGetStr (.jobj oid fields) "type" = none → σ.type = some "array") := by
  have hfuel : MAX_SCHEMA_DEPTH + 1 - depth = (MAX_SCHEMA_DEPTH - depth) + 1 := by omega
  have hfuel2 : MAX_SCHEMA_DEPTH - depth = MAX_SCHEMA_DEPTH + 1 - (depth + 1) := by omega
  have hguard : (decide (oid ∈ seen) || decide (MAX_SCHEMA_DEPTH < depth)) = false := by
    simp [hseen]
    omega
  have hrec : sumGo (MAX_SCHEMA_DEPTH - depth) iv rr (depth + 1) (oid :: seen) = some σi := by
    rw [hfuel2]
    exact hisum
  rw [summarizeSchema, hfuel, sumGo]
  simp only [nodeIdOf, hguard, Bool.false_eq_true, if_false]
  simp only [sumBody, sumContributions, sumDirect, sumItems, sumProps, sumRefContribution,
    sumVariants, hitems, href, hallOf, honeOf, hanyOf, hprops, htruthy, if_true, hrec]
  simp only [hasDataItemsMk, if_true, List.append_nil, List.nil_append, List.map,
    mergeSingleItems]
  refine ⟨_, rfl, ?_, ?_, ?_, ?_⟩
  · simp [absorbEmpty, ParameterSchemaSummary.itemsSchema]
  · rcases hst : σi.type with _ | str
    · simp [absorbEmpty, ParameterSchemaSummary.itemsType, jsStrTruthy, strKeep, hst]
    · by_cases hs : str = "" <;>
        simp [absorbEmpty, ParameterSchemaSummary.itemsType, jsStrTruthy, strKeep, hst, hs]
  · simp [absorbEmpty, ParameterSchemaSummary.itemsEnum]
  · intro htype
    simp [absorbEmpty, ParameterSchemaSummary.type, htype, strKeep, jsStrTruthy]


/-- Witness for claim C8 (amended) at a concrete array schema. -/
theorem claim_C8_witness :
    ∃ σ, summarizeSchema (.jobj 60 [("items", .jobj 61 [("type", .jstr "string")])])
        noResolve 0 [] = some σ ∧
      σ.itemsSchema = some stringTypeSummary ∧
      σ.itemsType = (if jsStrTruthy stringTypeSummary.type then stringTypeSummary.type else none) ∧
      σ.itemsEnum = stringTypeSummary.enumv ∧
      (jsGetStr (.jobj 60 [("items", .jobj 61 [("type", .jstr "string")])]) "type" = none →
        σ.type = some "array") :=
  claim_C8_amended 60 [("items", .jobj 61 [("type", .jstr "string")])] noResolve 0 []
    (.jobj 61 [("type", .jstr "string")]) stringTypeSummary
    (by decide) (by decide) (by rfl) (by rfl) (by rfl) (by rfl) (by rfl) (by rfl)
    (by rfl) (by rfl)

-- ── C4: merge idempotence ───────────────────────────────────────────

theorem strHasPre_refl (l : List Char) : strHasPre l l = true := by
  induction l with
  | nil => rfl
  | cons c t ih => simp [strHasPre, ih]

theorem strIncl_of_pre (hay sub : List Char) (h : strHasPre sub hay = true) :
    strIncl hay sub = true := by
  cases hay with
  | nil =>
    cases sub with
    | nil => rfl
    | cons c t => simp [strHasPre] at h
  | cons c t => simp [strIncl, h]

theorem strIncl_cons (h t sub : List Char) (hi : strIncl t sub = true) :
    strIncl (h ++ t) sub = true := by
  induction h with
  | nil => simpa using hi
  | cons c cs ih => simp [strIncl, ih]

theorem jsIncludes_self (s : String) : jsIncludes s s = true :=
  strIncl_of_pre s.data s.data (strHasPre_refl s.data)

theorem jsIncludes_append (d sep s : String) :
    jsIncludes (d ++ sep ++ s) s = true := by
  rw [jsIncludes]
  have hd : (d ++ sep ++ s).data = (d.data ++ sep.data) ++ s.data := by
    simp [String.data_append]
  rw [hd]
  exact strIncl_cons _ _ _ (strIncl_of_pre s.data s.data (strHasPre_refl s.data))

theorem append_ne_empty (d sep s : String) (h : s ≠ "") :
    d ++ sep ++ s ≠ "" := by
  intro he
  apply h
  apply String.ext
  have hd := congrArg String.data he
  simp [String.data_append] at hd
  simp [hd.2.2]

-- ── Absorption of the per-field merge steps ─────────────────────────

theorem scalarKeep_self (r : Option String) : scalarKeep r r = r := by
  by_cases h : jsStrTruthy r = true <;> simp [scalarKeep, h]

theorem scalarKeep_absorb (r s : Option String) :
    scalarKeep (scalarKeep r s) s = scalarKeep r s := by
  by_cases hr : jsStrTruthy r = true
  · simp [scalarKeep, hr]
  · by_cases hs : jsStrTruthy s = true <;> simp [scalarKeep, hr, hs]

theorem presKeep_self {α : Type} (r : Option α) : presKeep r r = r := by
  cases r <;> simp [presKeep]

theorem presKeep_absorb {α : Type} (r s : Option α) :
    presKeep (presKeep r s) s = presKeep r s := by
  cases r <;> cases s <;> simp [presKeep]

theorem descKeep_self (r : Option String) : descKeep r r = r := by
  by_cases h : jsStrTruthy r = true
  · cases r with
    | none => rfl
    | some d => simp [descKeep, h, jsIncludes_self]
  · simp [descKeep, h]

theorem jsStrTruthy_descKeep (r s : Option String) (h : jsStrTruthy s = true) :
    jsStrTruthy (descKeep r s) = true := by
  by_cases hr : jsStrTruthy r = true
  · cases r with
    | none => simp [jsStrTruthy] at hr
    | some d =>
      cases s with
      | none => simp [jsStrTruthy] at h
      | some t =>
        by_cases hi : jsIncludes d t = true
        · simp [descKeep, h, hr, hi]
        · simp only [descKeep, h, hr, hi, if_true, Bool.not_true, Bool.false_and,
            Bool.false_eq_true, if_false]
          simp [jsStrTruthy] at h ⊢
          exact append_ne_empty d "; " t h
  · simp [descKeep, h, hr]

theorem descKeep_absorb (r s : Option String) :
    descKeep (descKeep r s) s = descKeep r s := by
  by_cases hs : jsStrTruthy s = true
  · have htr : jsStrTruthy (descKeep r s) = true := jsStrTruthy_descKeep r s hs
    by_cases hr : jsStrTruthy r = true
    · cases r with
      | none => simp [jsStrTruthy] at hr
      | some d =>
        cases s with
        | none => simp [jsStrTruthy] at hs
        | some t =>
          by_cases hi : jsIncludes d t = true
          · simp [descKeep, hs, hr, hi]
          · have hstep : descKeep (some d) (some t) = some (d ++ "; " ++ t) := by
              simp [descKeep, hs, hr, hi]
            rw [hstep]
            have : jsStrTruthy (some (d ++ "; " ++ t)) = true := by
              rw [← hstep]
              exact htr
            simp [descKeep, hs, this, jsIncludes_append]
    · have hstep : descKeep r s = s := by simp [descKeep, hs, hr]
      rw [hstep]
      cases s with
      | none => simp [jsStrTruthy] at hs
      | some t => simp [descKeep, hs, jsIncludes_self]
  · simp [descKeep, hs]

-- ── Tidy summaries and absorbEmpty stability ────────────────────────

theorem strKeep_of_strOk (o : Option String) (h : strOkB o = true) : strKeep o = o := by
  cases o with
  | none => rfl
  | some str =>
    simp [strOkB] at h
    simp [strKeep, h]

theorem strOkB_scalarKeep (r s : Option String) (h : strOkB r = true) :
    strOkB (scalarKeep r s) = true := by
  by_cases hc : (!jsStrTruthy r && jsStrTruthy s) = true
  · have h2 : jsStrTruthy s = true := by
      simp at hc
      exact hc.2
    cases s with
    | none => simp [jsStrTruthy] at h2
    | some t =>
      simp [jsStrTruthy] at h2
      simp [scalarKeep, hc, strOkB, h2]
  · simp [scalarKeep, hc, h]

theorem strOkB_descKeep (r s : Option String) (h : strOkB r = true) :
    strOkB (descKeep r s) = true := by
  by_cases hs : jsStrTruthy s = true
  · have := jsStrTruthy_descKeep r s hs
    cases hk : descKeep r s with
    | none => rfl
    | some t =>
      rw [hk] at this
      simp [jsStrTruthy] at this
      simp [strOkB, this]
  · simp [descKeep, hs, h]

theorem insertProperty_length (bs : List SchemaObjectPropertySummary)
    (q : SchemaObjectPropertySummary) :
    bs.length ≤ (insertProperty bs q).length := by
  cases q with
  | mk n rq ds sc =>
    rw [insertProperty]
    cases h1 : lastIdxNamed bs n with
    | none => simp
    | some ix =>
      cases h2 : bs.get? ix with
      | none =>
        rw [List.get?_eq_getElem?] at h2
        simp [h2]
      | some e =>
        cases e with
        | mk _ _ _ _ =>
          rw [List.get?_eq_getElem?] at h2
          simp [h2]

theorem mergePropsList_length (bs inc : List SchemaObjectPropertySummary) :
    bs.length ≤ (mergePropsList bs inc).length := by
  induction inc generalizing bs with
  | nil => simp [mergePropsList]
  | cons q qs ih =>
    rw [mergePropsList]
    exact le_trans (insertProperty_length bs q) (ih (insertProperty bs q))

theorem tidy_of_normal (x : ParameterSchemaSummary) (h : normalS x = true) :
    tidyS x = true := by
  cases x with
  | mk t f ti d r it e ie df ex pr isc =>
    rcases pr with _ | ⟨_ | ⟨q, qs⟩⟩ <;> simp [normalS] at h <;> simp [tidyS] <;> tauto

theorem absorb_of_tidy (x : ParameterSchemaSummary) (h : tidyS x = true) :
    absorbEmpty x = x := by
  cases x with
  | mk t f ti d r it e ie df ex pr isc =>
    rcases pr with _ | ⟨_ | ⟨q, qs⟩⟩ <;>
      simp only [tidyS, Bool.and_eq_true] at h <;>
      obtain ⟨⟨⟨⟨⟨⟨h1, h2⟩, h3⟩, h4⟩, h5⟩, h6⟩, hm⟩ := h
    · simp [absorbEmpty, strKeep_of_strOk _ h1, strKeep_of_strOk _ h2,
        strKeep_of_strOk _ h3, strKeep_of_strOk _ h4, strKeep_of_strOk _ h5,
        strKeep_of_strOk _ h6]
    · simp at hm
    · simp [absorbEmpty, strKeep_of_strOk _ h1, strKeep_of_strOk _ h2,
        strKeep_of_strOk _ h3, strKeep_of_strOk _ h4, strKeep_of_strOk _ h5,
        strKeep_of_strOk _ h6]

theorem strOkB_strKeep (o : Option String) : strOkB (strKeep o) = true := by
  cases o with
  | none => rfl
  | some str => by_cases hs : str = "" <;> simp [strKeep, strOkB, hs]

theorem tidy_absorbEmpty (x : ParameterSchemaSummary) : tidyS (absorbEmpty x) = true := by
  cases x with
  | mk t f ti d r it e ie df ex pr isc =>
    rcases pr with _ | ⟨_ | ⟨q, qs⟩⟩ <;>
      simp [absorbEmpty, tidyS, strOkB_strKeep]

theorem tidy_mergeStep (S y : ParameterSchemaSummary) (h : tidyS S = true) :
    tidyS (mergeStep S y) = true := by
  cases S with
  | mk t f ti d r it e ie df ex pr isc =>
    cases y with
    | mk t' f' ti' d' r' it' e' ie' df' ex' pr' isc' =>
      rcases pr with _ | ⟨_ | ⟨b, bs⟩⟩ <;>
        simp only [tidyS, Bool.and_eq_true] at h <;>
        obtain ⟨⟨⟨⟨⟨⟨h1, h2⟩, h3⟩, h4⟩, h5⟩, h6⟩, hm⟩ := h
      · rcases pr' with _ | ⟨_ | ⟨q, qs⟩⟩ <;>
          simp [mergeStep, tidyS, strOkB_scalarKeep _ _ h1, strOkB_scalarKeep _ _ h2,
            strOkB_scalarKeep _ _ h3, strOkB_descKeep _ _ h4, strOkB_scalarKeep _ _ h5,
            strOkB_scalarKeep _ _ h6]
      · simp at hm
      · rcases pr' with _ | ⟨_ | ⟨q, qs⟩⟩ <;>
          simp [mergeStep, tidyS, strOkB_scalarKeep _ _ h1, strOkB_scalarKeep _ _ h2,
            strOkB_scalarKeep _ _ h3, strOkB_descKeep _ _ h4, strOkB_scalarKeep _ _ h5,
            strOkB_scalarKeep _ _ h6] <;>
        · have := mergePropsList_length (b :: bs) (q :: qs)
          cases hmm : mergePropsList (b :: bs) (q :: qs) with
          | nil => rw [hmm] at this; simp at this
          | cons a tl => simp

-- ── Index bookkeeping for the property map ──────────────────────────

theorem list_set_self {α : Type} (l : List α) (i : Nat) (v : α)
    (h : l.get? i = some v) : l.set i v = l := by
  induction l generalizing i with
  | nil => rfl
  | cons a t ih =>
    cases i with
    | zero =>
      have : a = v := Option.some.inj h
      simp [List.set, this]
    | succ j =>
      simp [List.set, ih j h]

theorem list_get_append_self {α : Type} (l : List α) (p : α) :
    (l ++ [p]).get? l.length = some p := by
  induction l with
  | nil => rfl
  | cons a t ih => simpa using ih

theorem list_get_append_left {α : Type} (l : List α) (p : α) (ix : Nat)
    (h : ix < l.length) : (l ++ [p]).get? ix = l.get? ix := by
  induction l generalizing ix with
  | nil => simp at h
  | cons a t ih =>
    cases ix with
    | zero => rfl
    | succ j => simpa using ih j (by simpa using h)

theorem list_get_set_ne {α : Type} (l : List α) (i j : Nat) (v : α)
    (h : i ≠ j) : (l.set i v).get? j = l.get? j := by
  induction l generalizing i j with
  | nil => rfl
  | cons a t ih =>
    cases i with
    | zero =>
      cases j with
      | zero => exact absurd rfl h
      | succ k => rfl
    | succ i' =>
      cases j with
      | zero => rfl
      | succ k => simpa using ih i' k (by omega)

theorem list_get_set_eq {α : Type} (l : List α) (i : Nat) (v : α)
    (h : i < l.length) : (l.set i v).get? i = some v := by
  induction l generalizing i with
  | nil => simp at h
  | cons a t ih =>
    cases i with
    | zero => rfl
    | succ j => simpa using ih j (by simpa using h)

theorem lastIdxNamed_bound (l : List SchemaObjectPropertySummary) (n : String)
    (ix : Nat) (h : lastIdxNamed l n = some ix) :
    ix < l.length ∧ ∃ e, l.get? ix = some e ∧ e.name = n := by
  induction l generalizing ix with
  | nil => simp [lastIdxNamed] at h
  | cons p t ih =>
    rw [lastIdxNamed] at h
    cases hj : lastIdxNamed t n with
    | some j =>
      rw [hj] at h
      have hix : ix = j + 1 := by
        have := Option.some.inj h
        omega
      subst hix
      rcases ih j hj with ⟨hb, e, he, hn⟩
      exact ⟨by simpa using hb, e, by simpa using he, hn⟩
    | none =>
      rw [hj] at h
      by_cases hp : p.name = n
      · rw [if_pos hp] at h
        have hix : ix = 0 := by
          have := Option.some.inj h
          omega
        subst hix
        exact ⟨by simp, p, rfl, hp⟩
      · rw [if_neg hp] at h
        simp at h

theorem lastIdxNamed_append (l : List SchemaObjectPropertySummary)
    (p : SchemaObjectPropertySummary) (n : String) :
    lastIdxNamed (l ++ [p]) n =
      if p.name = n then some l.length else lastIdxNamed l n := by
  induction l with
  | nil =>
    by_cases hp : p.name = n <;>
      simp [lastIdxNamed, hp]
  | cons q t ih =>
    rw [List.cons_append, lastIdxNamed, ih]
    by_cases hp : p.name = n
    · rw [if_pos hp, if_pos hp]
      simp
    · rw [if_neg hp, if_neg hp]
      conv_rhs => rw [lastIdxNamed]

theorem lastIdxNamed_set (l : List SchemaObjectPropertySummary) (ix : Nat)
    (v e : SchemaObjectPropertySummary) (n : String)
    (hget : l.get? ix = some e) (hname : v.name = e.name) :
    lastIdxNamed (l.set ix v) n = lastIdxNamed l n := by
  induction l generalizing ix with
  | nil => rfl
  | cons q t ih =>
    cases ix with
    | zero =>
      have : q = e := Option.some.inj hget
      subst this
      show lastIdxNamed (v :: t) n = lastIdxNamed (q :: t) n
      rw [lastIdxNamed, lastIdxNamed, hname]
    | succ j =>
      show lastIdxNamed (q :: t.set j v) n = lastIdxNamed (q :: t) n
      rw [lastIdxNamed, lastIdxNamed, ih j hget]

theorem lastIdxNamed_none (l : List SchemaObjectPropertySummary) (n : String)
    (h : (l.any (fun e => e.name = n)) = false) : lastIdxNamed l n = none := by
  induction l with
  | nil => rfl
  | cons p t ih =>
    simp at h
    rw [lastIdxNamed, ih (by simp; exact h.2), if_neg (by simpa using h.1)]

theorem lastIdxNamed_self_of_nodup (l : List SchemaObjectPropertySummary)
    (p : SchemaObjectPropertySummary) (h : nodupNames l = true) (hp : p ∈ l) :
    ∃ ix, lastIdxNamed l p.name = some ix ∧ l.get? ix = some p := by
  induction l with
  | nil => simp at hp
  | cons q t ih =>
    rw [nodupNames] at h
    simp only [Bool.and_eq_true] at h
    rcases List.mem_cons.mp hp with hq | ht
    · subst hq
      have hnone : lastIdxNamed t p.name = none := by
        apply lastIdxNamed_none
        simp at h ⊢
        intro e he
        exact fun hcontra => (h.1 e he) (by rw [hcontra])
      exact ⟨0, by rw [lastIdxNamed, hnone, if_pos rfl], rfl⟩
    · rcases ih h.2 ht with ⟨ix, hix, hget⟩
      exact ⟨ix + 1, by rw [lastIdxNamed, hix], by simpa using hget⟩

-- ── hasData monotonicity ────────────────────────────────────────────

theorem isSome_of_truthy (o : Option String) (h : jsStrTruthy o = true) :
    o.isSome = true := by
  cases o with
  | none => simp [jsStrTruthy] at h
  | some str => rfl

theorem truthy_of_strOk_isSome (o : Option String) (h1 : strOkB o = true)
    (h2 : o.isSome = true) : jsStrTruthy o = true := by
  cases o with
  | none => simp at h2
  | some str => simpa [jsStrTruthy, strOkB] using h1

theorem scalarKeep_isSome_right (r s : Option String) (h : jsStrTruthy s = true) :
    (scalarKeep r s).isSome = true := by
  by_cases hc : (!jsStrTruthy r && jsStrTruthy s) = true
  · rw [scalarKeep, if_pos hc]
    exact isSome_of_truthy s h
  · rw [scalarKeep, if_neg hc]
    apply isSome_of_truthy
    cases hr : jsStrTruthy r with
    | true => rfl
    | false => exact absurd (by simp [hr, h]) hc

theorem presKeep_isSome_right {α : Type} (r s : Option α) (h : s.isSome = true) :
    (presKeep r s).isSome = true := by
  cases r with
  | none => simp [presKeep, h]
  | some v => simp [presKeep]

theorem descKeep_isSome_right (r s : Option String) (h : jsStrTruthy s = true) :
    (descKeep r s).isSome = true :=
  isSome_of_truthy _ (jsStrTruthy_descKeep r s h)

theorem hasData_acc (x : ParameterSchemaSummary) :
    hasData x = (x.type.isSome || x.format.isSome || x.enumv.isSome ||
      x.itemsType.isSome || x.itemsEnum.isSome || x.dflt.isSome ||
      x.examplev.isSome || x.ref.isSome || x.title.isSome ||
      x.description.isSome || x.properties.isSome || x.itemsSchema.isSome) := by
  cases x
  rfl

section MergeStepProj

variable (t f ti d r it : Option String) (e ie : Option (List JVal))
variable (df ex : Option JVal) (pr : Option (List SchemaObjectPropertySummary))
variable (isc : Option ParameterSchemaSummary)
variable (t' f' ti' d' r' it' : Option String) (e' ie' : Option (List JVal))
variable (df' ex' : Option JVal) (pr' : Option (List SchemaObjectPropertySummary))
variable (isc' : Option ParameterSchemaSummary)
variable (b q : SchemaObjectPropertySummary) (bs qs : List SchemaObjectPropertySummary)
variable (x0 y0 : ParameterSchemaSummary)

theorem mergeStep_props_cc :
    (mergeStep (.mk t f ti d r it e ie df ex (some (b :: bs)) isc)
        (.mk t' f' ti' d' r' it' e' ie' df' ex' (some (q :: qs)) isc')).properties =
      some (mergePropsList (b :: bs) (q :: qs)) := rfl

theorem mergeStep_props_nc :
    (mergeStep (.mk t f ti d r it e ie df ex none isc)
        (.mk t' f' ti' d' r' it' e' ie' df' ex' (some (q :: qs)) isc')).properties =
      some (q :: qs) := rfl

theorem mergeStep_props_ec :
    (mergeStep (.mk t f ti d r it e ie df ex (some []) isc)
        (.mk t' f' ti' d' r' it' e' ie' df' ex' (some (q :: qs)) isc')).properties =
      some (q :: qs) := rfl

theorem mergeStep_items_ss :
    (mergeStep (.mk t f ti d r it e ie df ex pr (some x0))
        (.mk t' f' ti' d' r' it' e' ie' df' ex' pr' (some y0))).itemsSchema =
      mergeTwoSummaries (some x0) (some y0) := rfl

theorem mergeStep_items_ns :
    (mergeStep (.mk t f ti d r it e ie df ex pr none)
        (.mk t' f' ti' d' r' it' e' ie' df' ex' pr' (some y0))).itemsSchema =
      some y0 := rfl

end MergeStepProj

theorem normalO_some (σ : ParameterSchemaSummary) (h : normalO (some σ) = true) :
    normalS σ = true ∧ hasData σ = true := by
  rw [normalO.eq_def] at h
  simpa [Bool.and_eq_true] using h

theorem mergeTwo_some_some (x y : ParameterSchemaSummary) :
    mergeTwoSummaries (some x) (some y) =
      (if hasData (mergeStep (absorbEmpty x) y) then
        some (mergeStep (absorbEmpty x) y) else none) := rfl

theorem hasData_of_type (x : ParameterSchemaSummary)
    (h : x.type.isSome = true) : hasData x = true := by
  cases x
  simp only [ParameterSchemaSummary.type] at h
  simp [hasData, h]

theorem hasData_of_format (x : ParameterSchemaSummary)
    (h : x.format.isSome = true) : hasData x = true := by
  cases x
  simp only [ParameterSchemaSummary.format] at h
  simp [hasData, h]

theorem hasData_of_enumv (x : ParameterSchemaSummary)
    (h : x.enumv.isSome = true) : hasData x = true := by
  cases x
  simp only [ParameterSchemaSummary.enumv] at h
  simp [hasData, h]

theorem hasData_of_itemsType (x : ParameterSchemaSummary)
    (h : x.itemsType.isSome = true) : hasData x = true := by
  cases x
  simp only [ParameterSchemaSummary.itemsType] at h
  simp [hasData, h]

theorem hasData_of_itemsEnum (x : ParameterSchemaSummary)
    (h : x.itemsEnum.isSome = true) : hasData x = true := by
  cases x
  simp only [ParameterSchemaSummary.itemsEnum] at h
  simp [hasData, h]

theorem hasData_of_dflt (x : ParameterSchemaSummary)
    (h : x.dflt.isSome = true) : hasData x = true := by
  cases x
  simp only [ParameterSchemaSummary.dflt] at h
  simp [hasData, h]

theorem hasData_of_examplev (x : ParameterSchemaSummary)
    (h : x.examplev.isSome = true) : hasData x = true := by
  cases x
  simp only [ParameterSchemaSummary.examplev] at h
  simp [hasData, h]

theorem hasData_of_ref (x : ParameterSchemaSummary)
    (h : x.ref.isSome = true) : hasData x = true := by
  cases x
  simp only [ParameterSchemaSummary.ref] at h
  simp [hasData, h]

theorem hasData_of_title (x : ParameterSchemaSummary)
    (h : x.title.isSome = true) : hasData x = true := by
  cases x
  simp only [ParameterSchemaSummary.title] at h
  simp [hasData, h]

theorem hasData_of_description (x : ParameterSchemaSummary)
    (h : x.description.isSome = true) : hasData x = true := by
  cases x
  simp only [ParameterSchemaSummary.description] at h
  simp [hasData, h]

theorem hasData_of_properties (x : ParameterSchemaSummary)
    (h : x.properties.isSome = true) : hasData x = true := by
  cases x
  simp only [ParameterSchemaSummary.properties] at h
  simp [hasData, h]

theorem hasData_of_itemsSchema (x : ParameterSchemaSummary)
    (h : x.itemsSchema.isSome = true) : hasData x = true := by
  cases x
  simp only [ParameterSchemaSummary.itemsSchema] at h
  simp [hasData, h]

theorem hasData_mergeStep_right : ∀ (r y : ParameterSchemaSummary),
    normalS y = true → hasData y = true → hasData (mergeStep r y) = true
  | .mk t f ti d r0 it e ie df ex pr isc,
    .mk t' f' ti' d' r' it' e' ie' df' ex' pr' isc' => by
    intro hn hy
    rw [normalS.eq_def] at hn
    simp only [Bool.and_eq_true] at hn
    obtain ⟨⟨⟨⟨⟨⟨⟨n1, n2⟩, n3⟩, n4⟩, n5⟩, n6⟩, n7⟩, n8⟩ := hn
    simp only [hasData, Bool.or_eq_true] at hy
    rcases hy with (((((((((((h1 | h2) | h3) | h4) | h5) | h6) | h7) | h8) | h9) | h10) | h11) | h12)
    · refine hasData_of_type _ ?_
      rw [mergeStep_type]
      exact scalarKeep_isSome_right _ _ (truthy_of_strOk_isSome _ n1 h1)
    · refine hasData_of_format _ ?_
      rw [mergeStep_format]
      exact scalarKeep_isSome_right _ _ (truthy_of_strOk_isSome _ n2 h2)
    · refine hasData_of_enumv _ ?_
      rw [mergeStep_enumv]
      exact presKeep_isSome_right _ _ h3
    · refine hasData_of_itemsType _ ?_
      rw [mergeStep_itemsType]
      exact scalarKeep_isSome_right _ _ (truthy_of_strOk_isSome _ n6 h4)
    · refine hasData_of_itemsEnum _ ?_
      rw [mergeStep_itemsEnum]
      exact presKeep_isSome_right _ _ h5
    · refine hasData_of_dflt _ ?_
      rw [mergeStep_dflt]
      exact presKeep_isSome_right _ _ h6
    · refine hasData_of_examplev _ ?_
      rw [mergeStep_examplev]
      exact presKeep_isSome_right _ _ h7
    · refine hasData_of_ref _ ?_
      rw [mergeStep_ref]
      exact scalarKeep_isSome_right _ _ (truthy_of_strOk_isSome _ n5 h8)
    · refine hasData_of_title _ ?_
      rw [mergeStep_title]
      exact scalarKeep_isSome_right _ _ (truthy_of_strOk_isSome _ n3 h9)
    · refine hasData_of_description _ ?_
      rw [mergeStep_description]
      exact descKeep_isSome_right _ _ (truthy_of_strOk_isSome _ n4 h10)
    · refine hasData_of_properties _ ?_
      rcases pr' with _ | ⟨_ | ⟨q, qs⟩⟩
      · simp at h11
      · simp at n7
      · rcases pr with _ | ⟨_ | ⟨b, bs⟩⟩
        · rw [mergeStep_props_nc]
          rfl
        · rw [mergeStep_props_ec]
          rfl
        · rw [mergeStep_props_cc]
          rfl
    · refine hasData_of_itemsSchema _ ?_
      rcases isc' with _ | y0
      · simp at h12
      · obtain ⟨hny, hdy⟩ := normalO_some y0 n8
        rcases isc with _ | x0
        · rw [mergeStep_items_ns]
          rfl
        · have hrec := hasData_mergeStep_right (absorbEmpty x0) y0 hny hdy
          rw [mergeStep_items_ss, mergeTwo_some_some]
          simp [hrec]
  termination_by r y => sizeOf y
  decreasing_by
    simp_wf
    omega


-- ── Absorption machinery for merged property lists ──────────────────

theorem insert_absorbed (L : List SchemaObjectPropertySummary)
    (p : SchemaObjectPropertySummary) (h : absorbedIn L p) :
    insertProperty L p = L := by
  obtain ⟨ix, e, hidx, hget, hname, hreq, hdesc, hsch⟩ := h
  cases p with
  | mk n rq ds sc =>
    cases e with
    | mk n0 rq0 ds0 sc0 =>
      simp only [SchemaObjectPropertySummary.name] at hidx hname
      simp only [SchemaObjectPropertySummary.required,
        SchemaObjectPropertySummary.description,
        SchemaObjectPropertySummary.schema] at hreq hdesc hsch
      subst hname
      rw [insertProperty]
      simp only [hidx, hget]
      rw [hreq, hdesc, hsch]
      exact list_set_self L ix _ hget

theorem absorbedIn_cons (q : SchemaObjectPropertySummary)
    (qs : List SchemaObjectPropertySummary) (p : SchemaObjectPropertySummary)
    (hne : q.name ≠ p.name) (h : absorbedIn qs p) : absorbedIn (q :: qs) p := by
  obtain ⟨ix, e, hidx, hget, h1, h2, h3, h4⟩ := h
  refine ⟨ix + 1, e, ?_, ?_, h1, h2, h3, h4⟩
  · rw [lastIdxNamed, hidx]
  · simpa using hget

theorem absorbed_insert_ne (L : List SchemaObjectPropertySummary)
    (r q : SchemaObjectPropertySummary) (hne : r.name ≠ q.name)
    (h : absorbedIn L q) : absorbedIn (insertProperty L r) q := by
  obtain ⟨ix, e, hidx, hget, h1, h2, h3, h4⟩ := h
  cases r with
  | mk n rq ds sc =>
    simp only [SchemaObjectPropertySummary.name] at hne
    cases hli : lastIdxNamed L n with
    | none =>
      rw [insertProperty]
      simp only [hli]
      refine ⟨ix, e, ?_, ?_, h1, h2, h3, h4⟩
      · rw [lastIdxNamed_append]
        simp only [SchemaObjectPropertySummary.name]
        rw [if_neg hne]
        exact hidx
      · rw [list_get_append_left L _ ix (lastIdxNamed_bound L q.name ix hidx).1]
        exact hget
    | some ix' =>
      obtain ⟨hlt', e', hget', hname'⟩ := lastIdxNamed_bound L n ix' hli
      cases e' with
      | mk n0' rq0' ds0' sc0' =>
        simp only [SchemaObjectPropertySummary.name] at hname'
        rw [insertProperty]
        simp only [hli, hget']
        have hixne : ix' ≠ ix := by
          intro heq
          rw [heq] at hget'
          rw [hget] at hget'
          injection hget' with he
          apply hne
          rw [he] at h1
          simp only [SchemaObjectPropertySummary.name] at h1
          rw [← hname']
          exact h1
        refine ⟨ix, e, ?_, ?_, h1, h2, h3, h4⟩
        · rw [lastIdxNamed_set L ix' _ (.mk n0' rq0' ds0' sc0') q.name hget'
            (by simp [SchemaObjectPropertySummary.name, hname'])]
          exact hidx
        · rw [list_get_set_ne L ix' ix _ hixne]
          exact hget

theorem absorbed_mergePropsList_ne (inc : List SchemaObjectPropertySummary)
    (L : List SchemaObjectPropertySummary) (q : SchemaObjectPropertySummary)
    (hne : ∀ p ∈ inc, p.name ≠ q.name) (h : absorbedIn L q) :
    absorbedIn (mergePropsList L inc) q := by
  induction inc generalizing L with
  | nil =>
    rw [mergePropsList]
    exact h
  | cons r rs ih =>
    rw [mergePropsList]
    exact ih (insertProperty L r)
      (fun p hp => hne p (List.mem_cons_of_mem _ hp))
      (absorbed_insert_ne L r q (hne r (List.mem_cons_self _ _)) h)

theorem mergePropsList_stable (inc : List SchemaObjectPropertySummary)
    (L : List SchemaObjectPropertySummary)
    (h : ∀ p ∈ inc, absorbedIn L p) : mergePropsList L inc = L := by
  induction inc with
  | nil => rw [mergePropsList]
  | cons r rs ih =>
    rw [mergePropsList, insert_absorbed L r (h r (List.mem_cons_self _ _))]
    exact ih (fun p hp => h p (List.mem_cons_of_mem _ hp))


-- ── Self-merge stability under normality ────────────────────────────

theorem mergeTwo_self_of_step (y : ParameterSchemaSummary)
    (hn : normalS y = true) (hd : hasData y = true)
    (hstep : mergeStep y y = y) :
    mergeTwoSummaries (some y) (some y) = some y := by
  rw [mergeTwo_some_some, absorb_of_tidy y (tidy_of_normal y hn), hstep]
  simp [hd]

theorem absorbed_self_of (inc : List SchemaObjectPropertySummary)
    (p : SchemaObjectPropertySummary) (hmem : p ∈ inc)
    (hnd : nodupNames inc = true)
    (hsch : mergeTwoSummaries p.schema p.schema = p.schema) :
    absorbedIn inc p := by
  obtain ⟨ix, hidx, hget⟩ := lastIdxNamed_self_of_nodup inc p hnd hmem
  exact ⟨ix, p, hidx, hget, rfl, Bool.or_self _, ite_self _, hsch⟩

theorem normalProp_schema (p : SchemaObjectPropertySummary) :
    normalProp p = normalO p.schema := by
  cases p with
  | mk n rq ds sc =>
    rw [normalProp.eq_def]
    simp [SchemaObjectPropertySummary.schema]

theorem normalProp_of_mem (inc : List SchemaObjectPropertySummary)
    (p : SchemaObjectPropertySummary) (h : normalPropList inc = true)
    (hm : p ∈ inc) : normalProp p = true := by
  induction inc with
  | nil => cases hm
  | cons a rest ih =>
    rw [normalPropList.eq_def] at h
    simp only [Bool.and_eq_true] at h
    rcases List.mem_cons.mp hm with hm | hm
    · exact hm ▸ h.1
    · exact ih h.2 hm

theorem sizeOf_schema_lt (p : SchemaObjectPropertySummary)
    (σ : ParameterSchemaSummary) (h : p.schema = some σ) : sizeOf σ < sizeOf p := by
  cases p with
  | mk n rq ds sc =>
    simp only [SchemaObjectPropertySummary.schema] at h
    subst h
    simp
    omega

mutual
theorem selfStep_normal : ∀ (σ : ParameterSchemaSummary),
    normalS σ = true → mergeStep σ σ = σ
  | .mk t f ti d r it e ie df ex pr isc => by
    intro hn
    rw [normalS.eq_def] at hn
    simp only [Bool.and_eq_true] at hn
    obtain ⟨⟨⟨⟨⟨⟨⟨n1, n2⟩, n3⟩, n4⟩, n5⟩, n6⟩, n7⟩, n8⟩ := hn
    rcases pr with _ | ⟨_ | ⟨q, qs⟩⟩
    · rcases isc with _ | y
      · rw [mergeStep]
        simp [scalarKeep_self, presKeep_self, descKeep_self]
        all_goals simp
      · have hno := normalO_some y n8
        have hy := selfStep_normal y hno.1
        rw [mergeStep]
        simp [scalarKeep_self, presKeep_self, descKeep_self,
          mergeTwo_self_of_step y hno.1 hno.2 hy]
        all_goals simp
    · simp at n7
    · simp only [Bool.and_eq_true] at n7
      obtain ⟨⟨_, hnd⟩, hnl⟩ := n7
      have hst : ∀ p ∈ (q :: qs), absorbedIn (q :: qs) p :=
        selfEstablish_normal (q :: qs) hnd hnl
      rcases isc with _ | y
      · rw [mergeStep]
        simp [scalarKeep_self, presKeep_self, descKeep_self,
          mergePropsList_stable _ _ hst]
        all_goals simp
      · have hno := normalO_some y n8
        have hy := selfStep_normal y hno.1
        rw [mergeStep]
        simp [scalarKeep_self, presKeep_self, descKeep_self,
          mergePropsList_stable _ _ hst,
          mergeTwo_self_of_step y hno.1 hno.2 hy]
        all_goals simp
  termination_by σ => sizeOf σ

theorem selfEstablish_normal (inc : List SchemaObjectPropertySummary)
    (hnd : nodupNames inc = true) (hnl : normalPropList inc = true) :
    ∀ p ∈ inc, absorbedIn inc p := by
  intro p hmem
  rcases hps : p.schema with _ | σ
  · refine absorbed_self_of inc p hmem hnd ?_
    rw [hps]
    rfl
  · have hno : normalO (some σ) = true := by
      rw [← hps, ← normalProp_schema]
      exact normalProp_of_mem inc p hnl hmem
    obtain ⟨hnσ, hdσ⟩ := normalO_some σ hno
    have hlt : sizeOf σ < sizeOf inc :=
      lt_trans (sizeOf_schema_lt p σ hps) (List.sizeOf_lt_of_mem hmem)
    have hstep := selfStep_normal σ hnσ
    refine absorbed_self_of inc p hmem hnd ?_
    rw [hps]
    exact mergeTwo_self_of_step σ hnσ hdσ hstep
  termination_by sizeOf inc
  decreasing_by
    all_goals simp_wf
    all_goals first
      | omega
      | assumption
end


-- ── Idempotence machinery ───────────────────────────────────────────

theorem absorbEmpty_absorbEmpty (x : ParameterSchemaSummary) :
    absorbEmpty (absorbEmpty x) = absorbEmpty x :=
  absorb_of_tidy _ (tidy_absorbEmpty x)

theorem mergeTwo_self_opt (o : Option ParameterSchemaSummary)
    (h : normalO o = true) : mergeTwoSummaries o o = o := by
  cases o with
  | none => rfl
  | some σ =>
    obtain ⟨hn, hd⟩ := normalO_some σ h
    exact mergeTwo_self_of_step σ hn hd (selfStep_normal σ hn)

theorem propDesc_absorb (ds0 ds : Option String) :
    (if !jsStrTruthy (if !jsStrTruthy ds0 && jsStrTruthy ds then ds else ds0) &&
        jsStrTruthy ds
     then ds
     else (if !jsStrTruthy ds0 && jsStrTruthy ds then ds else ds0)) =
      (if !jsStrTruthy ds0 && jsStrTruthy ds then ds else ds0) := by
  by_cases h0 : jsStrTruthy ds0 = true <;> by_cases h1 : jsStrTruthy ds = true <;>
    simp [h0, h1]

theorem names_ne_of_nodup_head (q : SchemaObjectPropertySummary)
    (qs : List SchemaObjectPropertySummary) (h : nodupNames (q :: qs) = true) :
    ∀ p ∈ qs, p.name ≠ q.name := by
  intro p hp
  rw [nodupNames] at h
  simp only [Bool.and_eq_true, Bool.not_eq_true', List.any_eq_false] at h
  intro heq
  have := h.1 p hp
  simp [heq] at this

theorem nodup_tail (q : SchemaObjectPropertySummary)
    (qs : List SchemaObjectPropertySummary) (h : nodupNames (q :: qs) = true) :
    nodupNames qs = true := by
  rw [nodupNames] at h
  simp only [Bool.and_eq_true] at h
  exact h.2

theorem normalPropList_tail (q : SchemaObjectPropertySummary)
    (qs : List SchemaObjectPropertySummary)
    (h : normalPropList (q :: qs) = true) : normalPropList qs = true := by
  rw [normalPropList.eq_def] at h
  simp only [Bool.and_eq_true] at h
  exact h.2

theorem insert_establishes (bs : List SchemaObjectPropertySummary)
    (q : SchemaObjectPropertySummary)
    (hself : mergeTwoSummaries q.schema q.schema = q.schema)
    (habs : ∀ sc0, mergeTwoSummaries (mergeTwoSummaries sc0 q.schema) q.schema =
      mergeTwoSummaries sc0 q.schema) :
    absorbedIn (insertProperty bs q) q := by
  cases q with
  | mk n rq ds sc =>
    simp only [SchemaObjectPropertySummary.schema] at hself habs
    cases hli : lastIdxNamed bs n with
    | none =>
      rw [insertProperty]
      simp only [hli]
      refine ⟨bs.length, .mk n rq ds sc, ?_, ?_, rfl, Bool.or_self _, ite_self _, hself⟩
      · rw [lastIdxNamed_append]
        simp [SchemaObjectPropertySummary.name]
      · exact list_get_append_self bs _
    | some ix =>
      obtain ⟨hlt, e0, hget0, hname0⟩ := lastIdxNamed_bound bs n ix hli
      cases e0 with
      | mk n0 rq0 ds0 sc0 =>
        simp only [SchemaObjectPropertySummary.name] at hname0
        rw [insertProperty]
        simp only [hli, hget0]
        refine ⟨ix, .mk n (rq0 || rq)
          (if !jsStrTruthy ds0 && jsStrTruthy ds then ds else ds0)
          (mergeTwoSummaries sc0 sc), ?_, ?_, rfl, ?_, ?_, ?_⟩
        · simp only [SchemaObjectPropertySummary.name]
          rw [lastIdxNamed_set bs ix _ (.mk n0 rq0 ds0 sc0) n hget0
            (by simp [SchemaObjectPropertySummary.name, hname0])]
          exact hli
        · exact list_get_set_eq bs ix _ hlt
        · simp only [SchemaObjectPropertySummary.required]
          rw [Bool.or_assoc, Bool.or_self]
        · simp only [SchemaObjectPropertySummary.description]
          exact propDesc_absorb ds0 ds
        · simp only [SchemaObjectPropertySummary.schema]
          exact habs sc0


theorem PS_ext (x y : ParameterSchemaSummary)
    (h1 : x.type = y.type) (h2 : x.format = y.format) (h3 : x.title = y.title)
    (h4 : x.description = y.description) (h5 : x.ref = y.ref)
    (h6 : x.itemsType = y.itemsType) (h7 : x.enumv = y.enumv)
    (h8 : x.itemsEnum = y.itemsEnum) (h9 : x.dflt = y.dflt)
    (h10 : x.examplev = y.examplev) (h11 : x.properties = y.properties)
    (h12 : x.itemsSchema = y.itemsSchema) : x = y := by
  cases x
  cases y
  simp only [ParameterSchemaSummary.type, ParameterSchemaSummary.format,
    ParameterSchemaSummary.title, ParameterSchemaSummary.description,
    ParameterSchemaSummary.ref, ParameterSchemaSummary.itemsType,
    ParameterSchemaSummary.enumv, ParameterSchemaSummary.itemsEnum,
    ParameterSchemaSummary.dflt, ParameterSchemaSummary.examplev,
    ParameterSchemaSummary.properties,
    ParameterSchemaSummary.itemsSchema] at h1 h2 h3 h4 h5 h6 h7 h8 h9 h10 h11 h12
  subst h1 h2 h3 h4 h5 h6 h7 h8 h9 h10 h11 h12
  rfl

theorem mergeStep_props_rc (a b : ParameterSchemaSummary)
    (q : SchemaObjectPropertySummary) (qs : List SchemaObjectPropertySummary)
    (h : b.properties = some (q :: qs)) :
    (mergeStep a b).properties =
      (match a.properties with
       | some (c :: cs) => some (mergePropsList (c :: cs) (q :: qs))
       | _ => some (q :: qs)) := by
  cases a with
  | mk t f ti d r it e ie df ex pr isc =>
    cases b with
    | mk t' f' ti' d' r' it' e' ie' df' ex' pr' isc' =>
      simp only [ParameterSchemaSummary.properties] at h ⊢
      subst h
      rcases pr with _ | ⟨_ | ⟨c, cs⟩⟩ <;> rfl

theorem mergeStep_props_rn (a b : ParameterSchemaSummary)
    (h : b.properties = none) :
    (mergeStep a b).properties = a.properties := by
  cases a with
  | mk t f ti d r it e ie df ex pr isc =>
    cases b with
    | mk t' f' ti' d' r' it' e' ie' df' ex' pr' isc' =>
      simp only [ParameterSchemaSummary.properties] at h ⊢
      subst h
      rcases pr with _ | ⟨_ | ⟨c, cs⟩⟩ <;> rfl

theorem mergeStep_props_re (a b : ParameterSchemaSummary)
    (h : b.properties = some []) :
    (mergeStep a b).properties = a.properties := by
  cases a with
  | mk t f ti d r it e ie df ex pr isc =>
    cases b with
    | mk t' f' ti' d' r' it' e' ie' df' ex' pr' isc' =>
      simp only [ParameterSchemaSummary.properties] at h ⊢
      subst h
      rcases pr with _ | ⟨_ | ⟨c, cs⟩⟩ <;> rfl

theorem mergeStep_items_rs (a b : ParameterSchemaSummary)
    (y0 : ParameterSchemaSummary) (h : b.itemsSchema = some y0) :
    (mergeStep a b).itemsSchema =
      (match a.itemsSchema with
       | some x0 => mergeTwoSummaries (some x0) (some y0)
       | none => some y0) := by
  cases a with
  | mk t f ti d r it e ie df ex pr isc =>
    cases b with
    | mk t' f' ti' d' r' it' e' ie' df' ex' pr' isc' =>
      simp only [ParameterSchemaSummary.itemsSchema] at h ⊢
      subst h
      rcases isc with _ | x0 <;> rfl

theorem mergeStep_items_rn (a b : ParameterSchemaSummary)
    (h : b.itemsSchema = none) :
    (mergeStep a b).itemsSchema = a.itemsSchema := by
  cases a with
  | mk t f ti d r it e ie df ex pr isc =>
    cases b with
    | mk t' f' ti' d' r' it' e' ie' df' ex' pr' isc' =>
      simp only [ParameterSchemaSummary.itemsSchema] at h ⊢
      subst h
      rcases isc with _ | x0 <;> rfl

theorem normalS_props (y : ParameterSchemaSummary) (hn : normalS y = true)
    (l : List SchemaObjectPropertySummary) (h : y.properties = some l) :
    nodupNames l = true ∧ normalPropList l = true := by
  cases y with
  | mk t f ti d r it e ie df ex pr isc =>
    simp only [ParameterSchemaSummary.properties] at h
    subst h
    rw [normalS.eq_def] at hn
    simp only [Bool.and_eq_true] at hn
    obtain ⟨⟨_, n7⟩, _⟩ := hn
    exact ⟨n7.1.2, n7.2⟩

theorem normalS_items (y : ParameterSchemaSummary) (hn : normalS y = true)
    (y0 : ParameterSchemaSummary) (h : y.itemsSchema = some y0) :
    normalO (some y0) = true := by
  cases y with
  | mk t f ti d r it e ie df ex pr isc =>
    simp only [ParameterSchemaSummary.itemsSchema] at h
    subst h
    rw [normalS.eq_def] at hn
    simp only [Bool.and_eq_true] at hn
    exact hn.2

theorem props_sizeOf_lt (y : ParameterSchemaSummary)
    (l : List SchemaObjectPropertySummary) (h : y.properties = some l) :
    sizeOf l < sizeOf y := by
  cases y with
  | mk t f ti d r it e ie df ex pr isc =>
    simp only [ParameterSchemaSummary.properties] at h
    subst h
    simp
    try omega

theorem items_sizeOf_lt (y : ParameterSchemaSummary)
    (y0 : ParameterSchemaSummary) (h : y.itemsSchema = some y0) :
    sizeOf (some y0 : Option ParameterSchemaSummary) < sizeOf y := by
  cases y with
  | mk t f ti d r it e ie df ex pr isc =>
    simp only [ParameterSchemaSummary.itemsSchema] at h
    subst h
    simp
    try omega

theorem sizeOf_schemaOpt_lt (p : SchemaObjectPropertySummary) :
    sizeOf p.schema < sizeOf p := by
  cases p with
  | mk n rq ds sc =>
    simp only [SchemaObjectPropertySummary.schema]
    simp
    try omega

mutual
theorem optAbsorb : ∀ (a b : Option ParameterSchemaSummary), normalO b = true →
    mergeTwoSummaries (mergeTwoSummaries a b) b = mergeTwoSummaries a b
  | a, none => by
    intro _
    cases a with
    | none => rfl
    | some x =>
      rw [show mergeTwoSummaries (some x) none =
        (if hasData (absorbEmpty x) then some (absorbEmpty x) else none) from rfl]
      by_cases hd : hasData (absorbEmpty x) = true
      · rw [if_pos hd]
        rw [show mergeTwoSummaries (some (absorbEmpty x)) none =
          (if hasData (absorbEmpty (absorbEmpty x)) then
            some (absorbEmpty (absorbEmpty x)) else none) from rfl]
        rw [absorbEmpty_absorbEmpty, if_pos hd]
      · rw [if_neg hd]
        rfl
  | a, some y => by
    intro hb
    obtain ⟨hny, hdy⟩ := normalO_some y hb
    cases a with
    | none =>
      have habs : absorbEmpty y = y := absorb_of_tidy y (tidy_of_normal y hny)
      rw [show mergeTwoSummaries none (some y) =
        (if hasData (absorbEmpty y) then some (absorbEmpty y) else none) from rfl,
        habs, if_pos hdy]
      exact mergeTwo_self_of_step y hny hdy (selfStep_normal y hny)
    | some x =>
      have hR : hasData (mergeStep (absorbEmpty x) y) = true :=
        hasData_mergeStep_right (absorbEmpty x) y hny hdy
      rw [mergeTwo_some_some, if_pos hR, mergeTwo_some_some]
      rw [absorb_of_tidy _ (tidy_mergeStep _ y (tidy_absorbEmpty x))]
      rw [stepAbsorb (absorbEmpty x) y hny, if_pos hR]
  termination_by a b => sizeOf b
  decreasing_by
    all_goals simp_wf
    all_goals omega

theorem stepAbsorb (S y : ParameterSchemaSummary) (hn : normalS y = true) :
    mergeStep (mergeStep S y) y = mergeStep S y := by
  apply PS_ext
  · simp only [mergeStep_type]
    exact scalarKeep_absorb _ _
  · simp only [mergeStep_format]
    exact scalarKeep_absorb _ _
  · simp only [mergeStep_title]
    exact scalarKeep_absorb _ _
  · simp only [mergeStep_description]
    exact descKeep_absorb _ _
  · simp only [mergeStep_ref]
    exact scalarKeep_absorb _ _
  · simp only [mergeStep_itemsType]
    exact scalarKeep_absorb _ _
  · simp only [mergeStep_enumv]
    exact presKeep_absorb _ _
  · simp only [mergeStep_itemsEnum]
    exact presKeep_absorb _ _
  · simp only [mergeStep_dflt]
    exact presKeep_absorb _ _
  · simp only [mergeStep_examplev]
    exact presKeep_absorb _ _
  · rcases hpr : y.properties with _ | ⟨_ | ⟨q, qs⟩⟩
    · rw [mergeStep_props_rn _ _ hpr, mergeStep_props_rn _ _ hpr]
    · rw [mergeStep_props_re _ _ hpr, mergeStep_props_re _ _ hpr]
    · obtain ⟨hnd, hnl⟩ := normalS_props y hn _ hpr
      have hszp : sizeOf (q :: qs) < sizeOf y := props_sizeOf_lt y _ hpr
      rw [mergeStep_props_rc _ _ _ _ hpr, mergeStep_props_rc _ _ _ _ hpr]
      rcases hps : S.properties with _ | ⟨_ | ⟨b, bs⟩⟩
      · simp
        exact mergePropsList_stable _ _ (selfEstablish_normal (q :: qs) hnd hnl)
      · simp
        exact mergePropsList_stable _ _ (selfEstablish_normal (q :: qs) hnd hnl)
      · have hL : ∃ c cs, mergePropsList (b :: bs) (q :: qs) = c :: cs := by
          cases hM : mergePropsList (b :: bs) (q :: qs) with
          | nil =>
            have hlen := mergePropsList_length (b :: bs) (q :: qs)
            rw [hM] at hlen
            simp at hlen
          | cons c cs => exact ⟨c, cs, rfl⟩
        obtain ⟨c, cs, hM⟩ := hL
        have hest := propsEstablish (b :: bs) (q :: qs) hnd hnl
        rw [hM] at hest
        simp only [hM]
        simp
        exact mergePropsList_stable _ _ hest
  · rcases hisc : y.itemsSchema with _ | y0
    · rw [mergeStep_items_rn _ _ hisc, mergeStep_items_rn _ _ hisc]
    · have hno := normalS_items y hn _ hisc
      obtain ⟨hny0, hdy0⟩ := normalO_some y0 hno
      have hszi : sizeOf (some y0 : Option ParameterSchemaSummary) < sizeOf y :=
        items_sizeOf_lt y _ hisc
      rw [mergeStep_items_rs _ _ _ hisc, mergeStep_items_rs _ _ _ hisc]
      rcases his : S.itemsSchema with _ | x0
      · simp
        exact mergeTwo_self_of_step y0 hny0 hdy0 (selfStep_normal y0 hny0)
      · have hI : mergeTwoSummaries (some x0) (some y0) =
            some (mergeStep (absorbEmpty x0) y0) := by
          rw [mergeTwo_some_some,
            if_pos (hasData_mergeStep_right (absorbEmpty x0) y0 hny0 hdy0)]
        have habs := optAbsorb (some x0) (some y0) hno
        rw [hI] at habs
        simp only [hI]
        simpa using habs
  termination_by sizeOf y
  decreasing_by
    all_goals simp_wf
    all_goals first
      | omega
      | assumption

theorem propsEstablish : ∀ (bs inc : List SchemaObjectPropertySummary),
    nodupNames inc = true → normalPropList inc = true →
    ∀ p ∈ inc, absorbedIn (mergePropsList bs inc) p
  | _, [] => by
    intro _ _ p hp
    cases hp
  | bs, q :: qs => by
    intro hnd hnl p hp
    rw [mergePropsList]
    rcases List.mem_cons.mp hp with hq | hq
    · subst hq
      have hnorm : normalO p.schema = true := by
        rw [← normalProp_schema]
        exact normalProp_of_mem _ p hnl (List.mem_cons_self _ _)
      have hlt : sizeOf p.schema < sizeOf (p :: qs) :=
        lt_trans (sizeOf_schemaOpt_lt p) (List.sizeOf_lt_of_mem (List.mem_cons_self _ _))
      have hself : mergeTwoSummaries p.schema p.schema = p.schema :=
        mergeTwo_self_opt _ hnorm
      have habs : ∀ sc0, mergeTwoSummaries (mergeTwoSummaries sc0 p.schema) p.schema =
          mergeTwoSummaries sc0 p.schema := fun sc0 => optAbsorb sc0 p.schema hnorm
      have hins : absorbedIn (insertProperty bs p) p := insert_establishes bs p hself habs
      exact absorbed_mergePropsList_ne qs (insertProperty bs p) p
        (names_ne_of_nodup_head p qs hnd) hins
    · exact propsEstablish (insertProperty bs q) qs (nodup_tail q qs hnd)
        (normalPropList_tail q qs hnl) p hq
  termination_by bs inc => sizeOf inc
  decreasing_by
    all_goals simp_wf
    all_goals first
      | omega
      | assumption
      | (subst hq
         simp at hlt
         omega)
end


/-- C4: re-merging an already-absorbed contribution never changes the
first-wins scalar fields `type`, `format`, `title` and `ref` (for any
two summaries whatsoever), and for a normal, data-carrying contribution
`T` the whole merged summary is unchanged by merging `T` again:
`merge(merge(S, T), T) = merge(S, T)` including `description` (substring
deduplication), `properties` (union by name, `required` OR-ed) and
`itemsSchema`.  Without the normality proviso the full-summary half is
false: see the counterexample. -/
theorem claim_C4 :
    (∀ (S T : ParameterSchemaSummary),
      (mergeStep (mergeStep S T) T).type = (mergeStep S T).type ∧
      (mergeStep (mergeStep S T) T).format = (mergeStep S T).format ∧
      (mergeStep (mergeStep S T) T).title = (mergeStep S T).title ∧
      (mergeStep (mergeStep S T) T).ref = (mergeStep S T).ref) ∧
    (∀ (a : Option ParameterSchemaSummary) (T : ParameterSchemaSummary),
      normalS T = true → hasData T = true →
      mergeSchemaSummaries [mergeSchemaSummaries [a, some T], some T] =
        mergeSchemaSummaries [a, some T]) := by
  constructor
  · intro S T
    refine ⟨?_, ?_, ?_, ?_⟩
    · simp only [mergeStep_type]
      exact scalarKeep_absorb _ _
    · simp only [mergeStep_format]
      exact scalarKeep_absorb _ _
    · simp only [mergeStep_title]
      exact scalarKeep_absorb _ _
    · simp only [mergeStep_ref]
      exact scalarKeep_absorb _ _
  · intro a T hn hd
    have hno : normalO (some T) = true := by
      rw [normalO.eq_def]
      simp [hn, hd]
    rw [← mergeTwoSummaries_spec, ← mergeTwoSummaries_spec]
    exact optAbsorb a (some T) hno

/-- C4 counterexample to the unrestricted claim: `T` whose only content
is a data-less `itemsSchema` is not absorbed idempotently — the first
merge keeps the nested empty summary, the second collapses it to
nothing, so `merge(merge(S, T), T) ≠ merge(S, T)`. -/
theorem claim_C4_cex :
    ¬ (mergeSchemaSummaries
        [mergeSchemaSummaries [some stringTypeSummary, some emptyItemsSummary],
         some emptyItemsSummary] =
       mergeSchemaSummaries [some stringTypeSummary, some emptyItemsSummary]) := by
  intro h
  have h3 : (Option.bind
      (mergeSchemaSummaries
        [mergeSchemaSummaries [some stringTypeSummary, some emptyItemsSummary],
         some emptyItemsSummary])
      ParameterSchemaSummary.itemsSchema).isSome = false := rfl
  rw [h] at h3
  exact absurd h3 (by decide)

/-- C4 witness: the idempotence theorem applied to the concrete normal
summaries `{type: "string"}` and `{type: "integer"}`. -/
theorem claim_C4_witness :
    normalS integerTypeSummary = true ∧ hasData integerTypeSummary = true ∧
    mergeSchemaSummaries
        [mergeSchemaSummaries [some stringTypeSummary, some integerTypeSummary],
         some integerTypeSummary] =
      mergeSchemaSummaries [some stringTypeSummary, some integerTypeSummary] :=
  ⟨by decide, by decide,
    claim_C4.2 (some stringTypeSummary) integerTypeSummary (by decide) (by decide)⟩

end AgentMcp
